import Mathlib

/-!
# c-hexeditor: the window deque, the editor loop and the pattern search

A shallow embedding of `deque.h` and `hexeditor.c`.

Conventions of the embedding.

* A byte is a `Nat` below 256.  A byte of a `malloc`ed array that the program
  never initialised (for instance the part of a record that `fread` could not
  fill because the file ended) is `none`.
* A C operation whose result the program does not determine (a read outside
  an array, a use of a never-initialised byte, a dereference of a pointer
  that was freed or never set) yields `Fault.undefined`; `exit(1)` yields
  `Fault.exit`.
* `unsigned long` values are `Nat` reduced modulo `2^64`; `int` and
  `long int` values are `Int`.
* Screen output is not modelled.
-/

namespace HexEditor

/-! ## Outcomes of C code -/

/-- How a C function can fail to return: `exit(1)`, or behaviour the program
does not determine. -/
inductive Fault where
  | exit
  | undefined
deriving DecidableEq, Repr

/-- A `malloc`ed character array: `some b` is an initialised byte, `none` a
byte that was never written. -/
abbrev Line := List (Option Nat)

/-- Conversion of an `unsigned long` value to `long int` (two's complement). -/
def toLong (u : Nat) : Int :=
  if u % 2 ^ 64 < 2 ^ 63 then ((u % 2 ^ 64 : Nat) : Int)
  else ((u % 2 ^ 64 : Nat) : Int) - 2 ^ 64

/-- Conversion of an `int` value to `unsigned long` (reduction modulo `2^64`). -/
def toULong (i : Int) : Nat := (i % 2 ^ 64).toNat

/-- `memcpy(dst, src, n)` into a fresh array: the first `n` bytes of `src`;
bytes past the end of `src` are not determined. -/
def memcpy (src : Line) (n : Nat) : Line :=
  (List.range n).map (fun k => (src.get? k).join)

/-! ## The stdio stream -/

/-- The stream `file`: the bytes of the working copy and the file position. -/
structure FILE where
  bytes : List Nat
  pos : Nat
deriving DecidableEq, Repr

/-- `fseek(file, offset, SEEK_SET)`: a negative offset is rejected and the
position stays where it was. -/
def fseek (f : FILE) (offset : Int) : FILE :=
  if offset < 0 then f else { f with pos := offset.toNat }

/-- `fread(buf, n, 1, file)` into a fresh `malloc(n)` array: the bytes the
file still has from the position on; the rest of the array stays
uninitialised.  The position advances by the number of bytes read. -/
def fread (f : FILE) (n : Nat) : Line × FILE :=
  ((List.range n).map (fun k => f.bytes.get? (f.pos + k)),
   { f with pos := if f.pos < f.bytes.length then min (f.pos + n) f.bytes.length else f.pos })

/-- Write the bytes `s` at the file position: a gap between the end of the
file and the position is filled with zero bytes.  Nothing happens for an
empty `s`. -/
def fwriteAt (f : FILE) (s : List Nat) : FILE :=
  if s = [] then f
  else
    { bytes := (f.bytes ++ List.replicate (f.pos - f.bytes.length) 0).take f.pos
               ++ s ++ f.bytes.drop (f.pos + s.length),
      pos := f.pos + s.length }

/-- `fputs(&ch, file)`: writes the C string that starts at `ch`, that is `ch`
and the bytes `adjacent` that follow it in memory, up to the first zero byte
(which is not written). -/
def fputs (ch : Nat) (adjacent : List Nat) (f : FILE) : FILE :=
  fwriteAt f ((ch :: adjacent).takeWhile (fun b => b != 0))

/-! ## deque.h -/

/-- The `deque` struct.  Slot `i` of `d` is `some l` when `d[i]` points to a
live array with contents `l`, and `none` when the pointer was never set or
was freed. -/
structure deque where
  front : Int
  arrayLength : Nat
  length : Nat
  d : List (Option Line)
deriving DecidableEq, Repr

/-- `buildDeque`: an empty deque of `length` slots, none of which holds a
pointer yet.  (The C code allocates `length * arrayLength` bytes for the
pointer array; slots from `length` on are never assigned by any function of
`deque.h`, since every insertion is guarded by `front >= length - 1`.) -/
def buildDeque (length arrayLength : Nat) : deque :=
  { front := -1, length := length, arrayLength := arrayLength,
    d := List.replicate length none }

/-- The live array behind `d[i]`, if there is one. -/
def slot (d : List (Option Line)) (i : Int) : Except Fault Line :=
  if i < 0 then .error .undefined
  else match d.get? i.toNat with
    | some (some l) => .ok l
    | _ => .error .undefined

/-- Assignment `d[i] = p` to a slot of the pointer array (`none` for a
pointer that has just been freed). -/
def setSlot (d : List (Option Line)) (i : Int) (v : Option Line) :
    Except Fault (List (Option Line)) :=
  if i < 0 then .error .undefined
  else if i.toNat < d.length then .ok (d.set i.toNat v)
  else .error .undefined

/-- The loop of `deleteDequeBack`: for `i` from `i` on, `cnt` times, free
`d[i-1]` and replace it by a copy of `d[i]`. -/
def deleteDequeBackLoop (arrayLength : Nat) :
    Nat → Nat → List (Option Line) → Except Fault (List (Option Line))
  | 0, _, d => .ok d
  | cnt + 1, i, d => do
      let _ ← slot d ((i : Int) - 1)
      let src ← slot d i
      let d1 ← setSlot d ((i : Int) - 1) (some (memcpy src arrayLength))
      deleteDequeBackLoop arrayLength cnt (i + 1) d1

/-- `deleteDequeBack`: on an empty deque only a message is printed; the loop
`for (i = 1; i < front + 1; i++)` then runs and `front` is decremented. -/
def deleteDequeBack (q : deque) : Except Fault deque := do
  let d1 ← deleteDequeBackLoop q.arrayLength q.front.toNat 1 q.d
  .ok { q with d := d1, front := q.front - 1 }

/-- `insertDequeFront`: exits when the deque is full, otherwise stores a copy
of `array` in slot `front + 1`. -/
def insertDequeFront (q : deque) (array : Line) : Except Fault deque :=
  if q.front ≥ (q.length : Int) - 1 then .error .exit
  else do
    let d1 ← setSlot q.d (q.front + 1) (some (memcpy array q.arrayLength))
    .ok { q with front := q.front + 1, d := d1 }

/-- The loop of `insertDequeBack`: `d[i + 1] = d[i]` for `i` from `cnt - 1`
down to `0`. -/
def insertDequeBackLoop : Nat → List (Option Line) → Except Fault (List (Option Line))
  | 0, d => .ok d
  | i + 1, d => do
      let v ← match d.get? i with
        | some v => (.ok v : Except Fault (Option Line))
        | none => .error .undefined
      let d1 ← setSlot d ((i : Int) + 1) v
      insertDequeBackLoop i d1

/-- `insertDequeBack`: exits when the deque is full, otherwise moves every
pointer up by one slot and stores the pointer `array` itself in slot 0. -/
def insertDequeBack (q : deque) (array : Line) : Except Fault deque :=
  if q.front ≥ (q.length : Int) - 1 then .error .exit
  else do
    let d1 ← insertDequeBackLoop (q.front + 1).toNat q.d
    let d2 ← setSlot d1 0 (some array)
    .ok { q with d := d2, front := q.front + 1 }

/-- `deleteDequeFront`: on an empty deque only a message is printed; then
`d[front]` is freed and `front` is decremented. -/
def deleteDequeFront (q : deque) : Except Fault deque := do
  let _ ← slot q.d q.front
  let d1 ← setSlot q.d q.front none
  .ok { q with d := d1, front := q.front - 1 }

/-- `pushDequeFront`. -/
def pushDequeFront (q : deque) (array : Line) : Except Fault deque :=
  if q.front ≥ (q.length : Int) - 1 then do
    let q1 ← deleteDequeBack q
    insertDequeFront q1 array
  else insertDequeFront q array

/-- `pushDequeBack`. -/
def pushDequeBack (q : deque) (array : Line) : Except Fault deque :=
  if q.front ≥ (q.length : Int) - 1 then do
    let q1 ← deleteDequeFront q
    insertDequeBack q1 array
  else insertDequeBack q array

/-- `readDequeByte`: `d[index][elementIndex]`. -/
def readDequeByte (q : deque) (index elementIndex : Int) : Except Fault Nat := do
  let l ← slot q.d index
  if elementIndex < 0 then .error .undefined
  else match l.get? elementIndex.toNat with
    | some (some b) => .ok b
    | _ => .error .undefined

/-- `writeDequeByte`: `d[index][elementIndex] = byte`, the `int` argument
being converted to `char`. -/
def writeDequeByte (q : deque) (index elementIndex : Int) (byte : Int) :
    Except Fault deque := do
  let l ← slot q.d index
  if elementIndex < 0 then .error .undefined
  else if elementIndex.toNat < l.length then do
    let d1 ← setSlot q.d index (some (l.set elementIndex.toNat (some (byte % 256).toNat)))
    .ok { q with d := d1 }
  else .error .undefined

/-! ## hexeditor.c -/

/-- The `BUFFER_HEIGHT` constant. -/
def BUFFER_HEIGHT : Nat := 10

/-- The `EditorState` enum. -/
inductive EditorState where
  | browsing
  | editing
deriving DecidableEq, Repr

/-- The global variables of `hexeditor.c`.  `written` is the `int` flag
(`true` for 1, `false` for 0), `foundFlag` likewise. -/
structure State where
  editorState : EditorState
  lineOffset : Nat
  size : Nat
  lineSize : Nat
  bufferHeight : Int
  written : Bool
  fileBuffer : deque
  file : FILE
  x : Int
  y : Int
  foundFlag : Bool
deriving DecidableEq, Repr

/-- Conversion of an `int` to `char` (signed, 8 bits). -/
def toChar (c : Int) : Int := (c + 128) % 256 - 128

/-- `loadFile`: opens the file and sets `size`, `lineSize` and, for a file
of at most `BUFFER_HEIGHT` lines, `bufferHeight`.  `size / 16` is an integer
division, so `ceill` receives a whole number. -/
def loadFile (s : State) (bytes : List Nat) : State :=
  let size := bytes.length % 2 ^ 64
  let lineSize := size / 16
  { s with
    file := { bytes := bytes, pos := 0 },
    size := size,
    lineSize := lineSize,
    bufferHeight := if lineSize ≤ BUFFER_HEIGHT then ((lineSize + 1 : Nat) : Int) else s.bufferHeight }

/-- `readFileContents`: seek to `offset`, read `bufferLength` bytes into a new
array, seek back to the start. -/
def readFileContents (f : FILE) (offset : Int) (bufferLength : Nat) : Line × FILE :=
  let r := fread (fseek f offset) bufferLength
  (r.1, fseek r.2 0)

/-- `convertHexChar`. -/
def convertHexChar (hex : Int) : Int :=
  if hex ≥ 48 ∧ hex ≤ 57 then hex - 48
  else if hex ≥ 65 ∧ hex ≤ 70 then hex - 65 + 10
  else if hex ≥ 97 ∧ hex ≤ 102 then hex - 97 + 10
  else -1

/-- The loop of `readFileLines`, `cnt` rounds from line `i` on. -/
def readFileLinesLoop (offset : Int) :
    Nat → Nat → FILE → deque → Except Fault (FILE × deque)
  | 0, _, f, q => .ok (f, q)
  | cnt + 1, i, f, q => do
      let r := fread (fseek f (offset + (i : Int) * 16)) 16
      let q1 ← insertDequeFront q r.1
      readFileLinesLoop offset cnt (i + 1) r.2 q1

/-- `readFileLines`: reads `lineCount` lines of 16 bytes from `offset` on and
inserts each at the front of `fileBuffer`. -/
def readFileLines (offset : Int) (lineCount : Nat) (f : FILE) (q : deque) :
    Except Fault (FILE × deque) :=
  readFileLinesLoop offset lineCount 0 f q

/-- `writeCharToFile`: seek to `offset`, `fputs(&ch, file)`, seek back to the
start.  `adjacent` are the bytes that follow `ch` in memory. -/
def writeCharToFile (adjacent : List Nat) (f : FILE) (offset : Int) (ch : Nat) : FILE :=
  fseek (fputs ch adjacent (fseek f offset)) 0

/-- The C string that starts at the beginning of an array: the bytes before
the first zero byte.  There is none when the array ends, or an uninitialised
byte comes, before a zero byte. -/
def cstr : Line → Option (List Nat)
  | [] => none
  | none :: _ => none
  | some 0 :: _ => some []
  | some (b + 1) :: rest => (cstr rest).map (fun t => (b + 1) :: t)

/-- Whether `needle` occurs in `hay` as a contiguous run. -/
def occursIn (needle : List Nat) : List Nat → Bool
  | [] => needle.isEmpty
  | h :: t => needle.isPrefixOf (h :: t) || occursIn needle t

/-- `strstr(haystack, needle) != NULL` on two arrays read as C strings. -/
def strstr (haystack needle : Line) : Except Fault Bool :=
  match cstr haystack, cstr needle with
  | some h, some n => .ok (occursIn n h)
  | _, _ => .error .undefined

/-- The inner loop of `searchAlgorithm` on line `i`: `cnt` rounds from byte
`j` on.  After a first-byte hit that `strstr` rejects, `readBuffer` stays the
short array read at the hit (the re-read of the line is assigned to a new
variable of the inner block). -/
def searchBytes (searchBuffer : List Nat) (searchLength : Nat) (i : Nat) :
    Nat → Nat → Line → FILE → Except Fault (Option Nat × FILE)
  | 0, _, _, f => .ok (none, f)
  | cnt + 1, j, readBuffer, f =>
      match readBuffer.get? j, searchBuffer.head? with
      | some (some b), some p0 =>
          if b = p0 then
            if i * 16 + j ≥ 2 ^ 31 then .error .undefined
            else
              let r := readFileContents f ((i * 16 + j : Nat) : Int) searchLength
              match strstr r.1 (searchBuffer.map some) with
              | .error e => .error e
              | .ok true => .ok (some (i * 16 + j), r.2)
              | .ok false =>
                  let r2 := readFileContents r.2 ((i * 16 : Nat) : Int) 16
                  searchBytes searchBuffer searchLength i cnt (j + 1) r.1 r2.2
          else searchBytes searchBuffer searchLength i cnt (j + 1) readBuffer f
      | _, _ => .error .undefined

/-- The outer loop of `searchAlgorithm`: `cnt` lines from line `i` on. -/
def searchLines (searchBuffer : List Nat) (searchLength : Nat) :
    Nat → Nat → FILE → Except Fault (Option Nat × FILE)
  | 0, _, f => .ok (none, f)
  | cnt + 1, i, f =>
      if i * 16 ≥ 2 ^ 31 then .error .undefined
      else
        let r := readFileContents f ((i * 16 : Nat) : Int) 16
        match searchBytes searchBuffer searchLength i 16 0 r.1 r.2 with
        | .error e => .error e
        | .ok (some p, f1) => .ok (some p, f1)
        | .ok (none, f1) => searchLines searchBuffer searchLength cnt (i + 1) f1

/-- `searchAlgorithm`: the returned offset, the value of `foundFlag` after
the call, and the stream. -/
def searchAlgorithm (f : FILE) (size : Nat) (foundFlag : Bool)
    (searchBuffer : List Nat) (searchLength : Nat) : Except Fault (Nat × Bool × FILE) :=
  match searchLines searchBuffer searchLength (size / 16) 0 f with
  | .error e => .error e
  | .ok (some p, f1) => .ok (p, true, f1)
  | .ok (none, f1) => .ok (0, foundFlag, f1)

/-- One user action as `main` reads it. -/
inductive Input where
  /-- The characters X or x. -/
  | quit
  /-- The characters W or w. -/
  | write
  /-- The characters S or s followed by a pattern line that decodes to `searchBuffer`. -/
  | search (searchBuffer : List Nat)
  /-- The character 27, one character that is skipped, and the character `d`. -/
  | escape (d : Int)
  /-- Any other character `c`: the final `else` branch. -/
  | other (c : Int)
deriving DecidableEq, Repr

/-- The flush at the top of the `while` loop of `main`. -/
def flushUnwritten (adjacent : List Nat) (s : State) : Except Fault State :=
  if s.editorState = .browsing ∧ s.written = false then do
    let ch ← readDequeByte s.fileBuffer s.y s.x
    let offset := toLong ((s.lineOffset + toULong (s.y * 16) + toULong s.x) % 2 ^ 64)
    .ok { s with file := writeCharToFile adjacent s.file offset ch, written := true }
  else .ok s

/-- The `case 65` (UP) branch. -/
def keyUp (s : State) : Except Fault State :=
  if s.y ≠ 0 then .ok { s with y := s.y - 1 }
  else if s.lineOffset = 0 then .ok s
  else do
    let lineOffset := (s.lineOffset + 2 ^ 64 - 1) % 2 ^ 64
    let r := readFileContents s.file (toLong ((lineOffset + 2 ^ 64 - 1) % 2 ^ 64 * 16)) 16
    let q ← pushDequeBack s.fileBuffer r.1
    .ok { s with lineOffset := lineOffset, file := r.2, fileBuffer := q }

/-- The `case 66` (DOWN) branch. -/
def keyDown (s : State) : Except Fault State :=
  if s.y ≠ s.bufferHeight - 1 then .ok { s with y := s.y + 1 }
  else if (s.lineOffset + BUFFER_HEIGHT) % 2 ^ 64 > s.lineSize then .ok s
  else do
    let lineOffset := (s.lineOffset + 1) % 2 ^ 64
    let r := readFileContents s.file (toLong ((BUFFER_HEIGHT + lineOffset) * 16)) 16
    let q ← pushDequeFront s.fileBuffer r.1
    .ok { s with lineOffset := lineOffset, file := r.2, fileBuffer := q }

/-- The body of the `while` loop of `main` after `getchar`, for every input
but `quit`. -/
def handleInput (s : State) : Input → Except Fault State
  | .quit => .ok s
  | .write => .ok s
  | .search searchBuffer =>
      match searchAlgorithm s.file s.size s.foundFlag searchBuffer searchBuffer.length with
      | .error e => .error e
      | .ok (_, found, f1) =>
          if !found then .ok { s with file := f1, foundFlag := found }
          else .ok { s with file := f1, foundFlag := false }
  | .escape d =>
      let s1 := if s.editorState = .editing
        then { s with written := false, editorState := .browsing } else s
      if d = 65 then keyUp s1
      else if d = 66 then keyDown s1
      else if d = 67 then .ok { s1 with x := if s1.x < 15 then s1.x + 1 else 15 }
      else if d = 68 then .ok { s1 with x := if s1.x > 0 then s1.x - 1 else 0 }
      else .ok s1
  | .other c =>
      let val := convertHexChar (toChar c)
      if val = -1 then .ok { s with editorState := .browsing, written := false }
      else
        match s.editorState with
        | .browsing => do
            let q ← writeDequeByte s.fileBuffer s.y s.x val
            .ok { s with fileBuffer := q, editorState := .editing, written := false }
        | .editing => do
            let b ← readDequeByte s.fileBuffer s.y s.x
            let q ← writeDequeByte s.fileBuffer s.y s.x (toChar b * 16 + val)
            .ok { s with fileBuffer := q, editorState := .browsing, written := false }

/-- One round of the `while` loop: the flush, then the input. -/
def iteration (adjacent : List Nat) (s : State) (inp : Input) : Except Fault State := do
  let s1 ← flushUnwritten adjacent s
  handleInput s1 inp

/-- The `while` loop of `main` on a list of inputs; `quit` leaves the loop
after the flush of its round. -/
def mainLoop (adjacent : List Nat) : List Input → State → Except Fault State
  | [], s => .ok s
  | inp :: rest, s => do
      let s1 ← flushUnwritten adjacent s
      if inp = .quit then .ok s1
      else do
        let s2 ← handleInput s1 inp
        mainLoop adjacent rest s2

/-- The values of the globals when `main` starts. -/
def startState : State :=
  { editorState := .browsing, lineOffset := 0, size := 0, lineSize := 0,
    bufferHeight := BUFFER_HEIGHT, written := true,
    fileBuffer := buildDeque 0 0, file := { bytes := [], pos := 0 },
    x := 0, y := 0, foundFlag := false }

/-- The part of `main` before the loop: `loadFile`, `buildDeque`,
`readFileLines`. -/
def openEditor (bytes : List Nat) : Except Fault State := do
  let s := loadFile startState bytes
  let r ← readFileLines 0 BUFFER_HEIGHT s.file (buildDeque BUFFER_HEIGHT 16)
  .ok { s with file := r.1, fileBuffer := r.2 }

/-- The whole run: open the file, then the loop. -/
def runEditor (adjacent : List Nat) (bytes : List Nat) (inputs : List Input) :
    Except Fault State := do
  let s ← openEditor bytes
  mainLoop adjacent inputs s

/-! ## Observations and sample inputs -/

/-- Record number `k` of a file as `fread` delivers it. -/
def fileRecord (bytes : List Nat) (k : Nat) : Line :=
  (List.range 16).map (fun j => bytes.get? (16 * k + j))

/-- The array behind window slot `i`, when the slot holds a live pointer. -/
def windowRecord (s : State) (i : Nat) : Option Line := (s.fileBuffer.d.get? i).join

/-- A file of `n` bytes in which every byte of record `k` has the value `k`. -/
def numberedFile (n : Nat) : List Nat := (List.range n).map (fun i => i / 16)

/-- The Down key, `n` times. -/
def downs (n : Nat) : List Input := List.replicate n (.escape 66)

/-- The Up key, `n` times. -/
def ups (n : Nat) : List Input := List.replicate n (.escape 65)

/-- `searchAlgorithm` on a freshly opened file with these bytes: the returned
offset and `foundFlag`. -/
def searchFile (bytes pattern : List Nat) : Except Fault (Nat × Bool) :=
  (searchAlgorithm { bytes := bytes, pos := 0 } (bytes.length % 2 ^ 64) false
    pattern pattern.length).map (fun r => (r.1, r.2.1))

/-- The editor state right after a file of 32 bytes `0x11` is opened. -/
def opened32 : State :=
  match openEditor (List.replicate 32 17) with
  | .ok s => s
  | .error _ => startState

/-- The Right key, `n` times. -/
def rights (n : Nat) : List Input := List.replicate n (.escape 67)

/-- The editor state right after a file with these bytes is opened. -/
def opened (bytes : List Nat) : State :=
  match openEditor bytes with
  | .ok s => s
  | .error _ => startState

/-- The offset that the flush at the top of the loop passes to
`writeCharToFile`: `lineOffset + (y * 16) + x`. -/
def flushOffset (s : State) : Int :=
  toLong ((s.lineOffset + toULong (s.y * 16) + toULong s.x) % 2 ^ 64)

/-- A 16-byte file that holds the bytes `AA 00` at offset 1. -/
def searchSample : List Nat := [0x01, 0xAA, 0x00] ++ List.replicate 13 1

/-- The five-byte file `00 11 22 33 44`. -/
def shortFile : List Nat := [0x00, 0x11, 0x22, 0x33, 0x44]

/-- The state after five Right keys and the keys `4` and `1` on `shortFile`. -/
def shortFileRun : State :=
  match runEditor [] shortFile (rights 5 ++ [.other 52, .other 49]) with
  | .ok s => s
  | .error _ => startState

/-- The bounds on the cursor and on `lineOffset` that the loop keeps on a
file of `n` whole records: the cursor is inside the 16-column grid, on a row
below `bufferHeight`, and the rows `lineOffset .. lineOffset + bufferHeight - 1`
end at record `n` at the latest. -/
def gridInv (n : Nat) (s : State) : Prop :=
  s.lineSize = n ∧ n < 2 ^ 60 ∧ 0 ≤ s.x ∧ s.x ≤ 15 ∧ 0 ≤ s.y ∧ s.y ≤ s.bufferHeight - 1
  ∧ (s.lineOffset : Int) + s.bufferHeight - 1 ≤ (n : Int)
  ∧ (n ≤ 10 → s.bufferHeight = (n : Int) + 1) ∧ (10 < n → s.bufferHeight = 10)

/-- The full deque of element length `al` that holds the arrays `es`, slot 0
first: every slot points to a live array and `front` is the last index. -/
def fullDeque (al : Nat) (es : List Line) : deque :=
  { front := (es.length : Int) - 1, arrayLength := al, length := es.length,
    d := es.map some }

/-- The state after the key `7` on the freshly opened 32-byte file: Editing,
with `0x07` under the cursor at row 0, column 0. -/
def editing32 : State :=
  match handleInput opened32 (.other 55) with
  | .ok s => s
  | .error _ => startState

/-- The ten window records of `editing32`. -/
def window32 : List Line :=
  ((List.replicate 16 (some 17)).set 0 (some 7)) :: List.replicate 16 (some 17)
    :: List.replicate 8 (List.replicate 16 none)

/-- Whether a block of inputs is one navigation key, the write command, or
the two keys of a complete hex edit. -/
def usualBlock : List Input → Bool
  | [.escape _] => true
  | [.write] => true
  | [.other c1, .other c2] =>
      convertHexChar (toChar c1) != -1 && convertHexChar (toChar c2) != -1
  | _ => false

/-- The window holds ten live 16-byte records. -/
def windowFull (s : State) : Prop :=
  ∃ es : List Line, s.fileBuffer = fullDeque 16 es ∧ es.length = 10
    ∧ ∀ e ∈ es, e.length = 16

/-! ## Theorems -/

set_option maxRecDepth 100000

/-! ### Helper lemmas on the deque accessors -/

theorem slot_ok {d : List (Option Line)} {i : Int} {l : Line} (hi : 0 ≤ i)
    (h : d.get? i.toNat = some (some l)) : slot d i = .ok l := by
  have : ¬ i < 0 := not_lt.mpr hi
  simp only [slot, this, if_false, h]

theorem setSlot_ok {d : List (Option Line)} {i : Int} (v : Option Line) (hi : 0 ≤ i)
    (h : i.toNat < d.length) : setSlot d i v = .ok (d.set i.toNat v) := by
  have : ¬ i < 0 := not_lt.mpr hi
  simp only [setSlot, this, if_false, h, if_true]

theorem writeDequeByte_ok {q : deque} {y x : Int} {l : Line} (b : Int) (hy : 0 ≤ y)
    (hx : 0 ≤ x) (hl : q.d.get? y.toNat = some (some l)) (hxl : x.toNat < l.length) :
    writeDequeByte q y x b
      = .ok { q with d := q.d.set y.toNat (some (l.set x.toNat (some (b % 256).toNat))) } := by
  have hlen : y.toNat < q.d.length := by
    rcases List.get?_eq_some.mp hl with ⟨h, _⟩
    exact h
  have hx0 : ¬ x < 0 := not_lt.mpr hx
  simp only [writeDequeByte, slot_ok hy hl, bind, Except.bind, hx0, if_false, hxl, if_true,
    setSlot_ok _ hy hlen]

theorem readDequeByte_ok {q : deque} {y x : Int} {l : Line} {b : Nat} (hy : 0 ≤ y)
    (hx : 0 ≤ x) (hl : q.d.get? y.toNat = some (some l))
    (hb : l.get? x.toNat = some (some b)) : readDequeByte q y x = .ok b := by
  have hx0 : ¬ x < 0 := not_lt.mpr hx
  simp only [readDequeByte, slot_ok hy hl, bind, Except.bind, hx0, if_false, hb]

theorem flushUnwritten_frame (adjacent : List Nat) (s t : State)
    (h : flushUnwritten adjacent s = .ok t) :
    t.lineOffset = s.lineOffset ∧ t.fileBuffer = s.fileBuffer ∧ t.x = s.x ∧ t.y = s.y := by
  unfold flushUnwritten at h
  split_ifs at h with hc
  · cases hr : readDequeByte s.fileBuffer s.y s.x with
    | error e => rw [hr] at h; cases h
    | ok ch =>
        rw [hr] at h
        have h' := Except.ok.inj h
        subst h'
        exact ⟨rfl, rfl, rfl, rfl⟩
  · have h' := Except.ok.inj h
    subst h'
    exact ⟨rfl, rfl, rfl, rfl⟩

theorem convertHexChar_le (h : Int) (d : Nat) (hd : convertHexChar h = (d : Int)) :
    d ≤ 15 := by
  unfold convertHexChar at hd
  split_ifs at hd <;> omega

/-- C1 (evaluation at the failing input): on a file of 12 records, ten Down
keys from the freshly opened editor leave no pending edit, `lineOffset = 1`,
and window record 9 holding file record 11, which differs from file record
`lineOffset + 9 = 10`. -/
theorem window_record_not_file_record_after_scroll :
    (runEditor [] (numberedFile 192) (downs 10)).map
        (fun s => (s.editorState, s.written, s.lineOffset, windowRecord s 9))
      = .ok (.browsing, true, 1, some (fileRecord (numberedFile 192) 11))
    ∧ fileRecord (numberedFile 192) 11 ≠ fileRecord (numberedFile 192) (1 + 9) :=
  ⟨rfl, by decide⟩

/-- C2 (evaluation at the failing inputs): on the file `00 11 22 33 44` the
pattern `22 33`, which occurs at offset 2, is reported not found; likewise
the pattern `00 BB` on the file `AA 00 BB`, and a pattern that lies in the
last, partial record of a longer file. -/
theorem searchAlgorithm_misses_occurrence :
    searchFile [0x00, 0x11, 0x22, 0x33, 0x44] [0x22, 0x33] = .ok (0, false)
    ∧ ([0x00, 0x11, 0x22, 0x33, 0x44].drop 2).take 2 = [0x22, 0x33]
    ∧ searchFile [0xAA, 0x00, 0xBB] [0x00, 0xBB] = .ok (0, false)
    ∧ ([0xAA, 0x00, 0xBB].drop 1).take 2 = [0x00, 0xBB]
    ∧ searchFile (List.replicate 16 1 ++ [0xCC, 0x00]) [0xCC, 0x00] = .ok (0, false)
    ∧ ((List.replicate 16 1 ++ [0xCC, 0x00]).drop 16).take 2 = [0xCC, 0x00] :=
  ⟨rfl, rfl, rfl, rfl, rfl, rfl⟩

/-- C3 (evaluation at the failing input): on a 16-byte file that starts
`AA 00 CC` the pattern `AA 00 BB` is reported found at offset 0, although the
three file bytes at offset 0 differ from the pattern and the pattern occurs
nowhere in the file; a pattern starting with a zero byte is reported found at
the first zero byte of the file whatever follows it. -/
theorem searchAlgorithm_reports_false_match :
    searchFile ([0xAA, 0x00, 0xCC] ++ List.replicate 13 1) [0xAA, 0x00, 0xBB] = .ok (0, true)
    ∧ (([0xAA, 0x00, 0xCC] ++ List.replicate 13 1).drop 0).take 3 ≠ [0xAA, 0x00, 0xBB]
    ∧ occursIn [0xAA, 0x00, 0xBB] ([0xAA, 0x00, 0xCC] ++ List.replicate 13 1) = false
    ∧ searchFile ([0x01, 0x00, 0xCC] ++ List.replicate 13 1) [0x00, 0xBB] = .ok (1, true)
    ∧ occursIn [0x00, 0xBB] ([0x01, 0x00, 0xCC] ++ List.replicate 13 1) = false :=
  ⟨rfl, by decide, rfl, rfl, rfl⟩

/-- C4 (evaluation at the failing input): with `lineOffset = 1` and the
cursor at row 0, column 0, the composed byte `0x41` is flushed to file offset
`1 + 0 * 16 + 0 = 1`; the byte at offset `(1 + 0) * 16 + 0 = 16` keeps its
old value. -/
theorem flush_writes_at_unscaled_lineOffset :
    ((runEditor [] (numberedFile 192) (downs 10 ++ ups 9 ++ [.other 52, .other 49])).bind
        (flushUnwritten [])).map
        (fun s => (s.lineOffset, s.y, s.x, windowRecord s 0, s.written, s.file.bytes))
      = .ok (1, 0, 0, some ((fileRecord (numberedFile 192) 1).set 0 (some 0x41)), true,
          (numberedFile 192).set 1 0x41)
    ∧ ((numberedFile 192).set 1 0x41).get? ((1 + 0) * 16 + 0) = some 1 :=
  ⟨rfl, rfl⟩

/-- C5 (evaluation at the failing input): in a file of 32 bytes `0x11`, the
digit `A` typed at row 0, column 0 and then the Right key (or the Down key)
lead to a flush that leaves the file as it was: byte 0 of the file is still
`0x11` while the window shows `0x0A`, and nothing is pending any more. -/
theorem edit_lost_when_cursor_moves :
    ((runEditor [] (List.replicate 32 0x11) [.other 65, .escape 67]).bind
        (flushUnwritten [])).map
        (fun s => (s.editorState, s.written, s.x, s.y, readDequeByte s.fileBuffer 0 0,
                   s.file.bytes))
      = .ok (.browsing, true, 1, 0, .ok 0x0A, List.replicate 32 0x11)
    ∧ ((runEditor [] (List.replicate 32 0x11) [.other 65, .escape 66]).bind
        (flushUnwritten [])).map
        (fun s => (s.editorState, s.written, s.x, s.y, readDequeByte s.fileBuffer 0 0,
                   s.file.bytes))
      = .ok (.browsing, true, 0, 1, .ok 0x0A, List.replicate 32 0x11) :=
  ⟨rfl, rfl⟩

/-- C6: from Browsing with the cursor on a byte of a live window record, the
keys for the hex digits `d1` and `d2` are both handled, the editor is back in
Browsing, the byte under the cursor is `16 * d1 + d2`, the window differs
from the old one in that byte only, and cursor, `lineOffset` and file are
unchanged. -/
theorem two_hex_digits_compose (adjacent : List Nat) (s : State) (c1 c2 : Int)
    (d1 d2 : Nat) (l : Line)
    (hb : s.editorState = .browsing) (hy : 0 ≤ s.y) (hx : 0 ≤ s.x)
    (hl : s.fileBuffer.d.get? s.y.toNat = some (some l)) (hxl : s.x.toNat < l.length)
    (h1 : convertHexChar (toChar c1) = (d1 : Int))
    (h2 : convertHexChar (toChar c2) = (d2 : Int)) :
    ∃ s1 s2, handleInput s (.other c1) = .ok s1
      ∧ iteration adjacent s1 (.other c2) = .ok s2
      ∧ s2.editorState = .browsing
      ∧ readDequeByte s2.fileBuffer s.y s.x = .ok (16 * d1 + d2)
      ∧ s2.fileBuffer.d
          = s.fileBuffer.d.set s.y.toNat (some (l.set s.x.toNat (some (16 * d1 + d2))))
      ∧ (∀ i j : Int, (i, j) ≠ (s.y, s.x) →
          readDequeByte s2.fileBuffer i j = readDequeByte s.fileBuffer i j)
      ∧ s2.x = s.x ∧ s2.y = s.y ∧ s2.lineOffset = s.lineOffset ∧ s2.file = s.file := by
  have hd1 := convertHexChar_le _ _ h1
  have hd2 := convertHexChar_le _ _ h2
  have hlen : s.y.toNat < s.fileBuffer.d.length := by
    rcases List.get?_eq_some.mp hl with ⟨h, _⟩
    exact h
  have hv1 : ¬ ((d1 : Int) = -1) := by omega
  have hv2 : ¬ ((d2 : Int) = -1) := by omega
  have e1 : (((d1 : Int) % 256).toNat) = d1 := by omega
  -- first digit
  let q1 : deque := { s.fileBuffer with
    d := s.fileBuffer.d.set s.y.toNat (some (l.set s.x.toNat (some d1))) }
  have hs1 : handleInput s (.other c1)
      = .ok { s with fileBuffer := q1, editorState := .editing, written := false } := by
    simp only [handleInput, h1, hv1, if_false, hb, writeDequeByte_ok _ hy hx hl hxl, bind,
      Except.bind, e1]
  -- second digit
  have hl1 : q1.d.get? s.y.toNat = some (some (l.set s.x.toNat (some d1))) := by
    simp [q1, List.getElem?_set, hlen]
  have hxl1 : s.x.toNat < (l.set s.x.toNat (some d1)).length := by simpa using hxl
  have hb1 : (l.set s.x.toNat (some d1)).get? s.x.toNat = some (some d1) := by
    simp [List.getElem?_set, hxl]
  have e2 : (((toChar (d1 : Int) * 16 + (d2 : Int)) % 256).toNat) = 16 * d1 + d2 := by
    unfold toChar
    omega
  let q2 : deque := { s.fileBuffer with
    d := s.fileBuffer.d.set s.y.toNat (some (l.set s.x.toNat (some (16 * d1 + d2)))) }
  refine ⟨_, { s with fileBuffer := q2, editorState := .browsing, written := false },
    hs1, ?_, rfl, ?_, ?_, ?_, rfl, rfl, rfl, rfl⟩
  · have hr : readDequeByte q1 s.y s.x = .ok d1 := readDequeByte_ok hy hx hl1 hb1
    have hw : writeDequeByte q1 s.y s.x (toChar (d1 : Int) * 16 + (d2 : Int)) = .ok q2 := by
      rw [writeDequeByte_ok _ hy hx hl1 hxl1, e2]
      simp [q1, q2]
    simp only [iteration, flushUnwritten, bind, Except.bind, handleInput, h2, hv2, if_false]
    simp [hr, hw]
  · apply readDequeByte_ok hy hx (l := l.set s.x.toNat (some (16 * d1 + d2)))
    · simp [q2, List.getElem?_set, hlen]
    · simp [List.getElem?_set, hxl]
  · simp [q2]
  · intro i j hne
    show readDequeByte q2 i j = readDequeByte s.fileBuffer i j
    by_cases hi : i < 0
    · simp [readDequeByte, slot, hi, bind, Except.bind]
    · by_cases hiy : i = s.y
      · have hjx : j ≠ s.x := fun h => hne (by rw [hiy, h])
        have hs2 : slot q2.d s.y = .ok (l.set s.x.toNat (some (16 * d1 + d2))) :=
          slot_ok hy (by simp [q2, List.getElem?_set, hlen])
        have hs0 : slot s.fileBuffer.d s.y = .ok l := slot_ok hy hl
        rw [hiy]
        simp only [readDequeByte, hs2, hs0, bind, Except.bind]
        by_cases hj : j < 0
        · simp [hj]
        · have hjn : s.x.toNat ≠ j.toNat := by omega
          simp [hj, List.getElem?_set, hjn]
      · have hin : s.y.toNat ≠ i.toNat := by omega
        simp [readDequeByte, slot, hi, bind, Except.bind, q2, List.getElem?_set, hin]

/-- Witness for C6: the keys `7` and `F` on the freshly opened 32-byte file. -/
theorem two_hex_digits_compose_witness :
    ∃ s1 s2, handleInput opened32 (.other 55) = .ok s1
      ∧ iteration [] s1 (.other 70) = .ok s2
      ∧ s2.editorState = .browsing
      ∧ readDequeByte s2.fileBuffer opened32.y opened32.x = .ok (16 * 7 + 15)
      ∧ s2.fileBuffer.d
          = opened32.fileBuffer.d.set opened32.y.toNat
              (some ((List.replicate 16 (some 17)).set opened32.x.toNat (some (16 * 7 + 15))))
      ∧ (∀ i j : Int, (i, j) ≠ (opened32.y, opened32.x) →
          readDequeByte s2.fileBuffer i j = readDequeByte opened32.fileBuffer i j)
      ∧ s2.x = opened32.x ∧ s2.y = opened32.y ∧ s2.lineOffset = opened32.lineOffset
      ∧ s2.file = opened32.file :=
  two_hex_digits_compose [] opened32 55 70 7 15 (List.replicate 16 (some 17))
    rfl (by decide) (by decide) rfl (by decide) rfl rfl

/-- C7 (evaluation at the failing input): on a file of 14 records, after
eleven Down keys and nine Up keys the editor is at `lineOffset = 2`, row 0;
one more Up key sets `lineOffset = 1` and moves the old records down by one,
but puts file record 0, not file record 1, at window index 0. -/
theorem scrollUp_loads_record_two_above :
    (runEditor [] (numberedFile 224) (downs 11 ++ ups 9)).map
        (fun s => (s.lineOffset, s.y, windowRecord s 0, windowRecord s 8))
      = .ok (2, 0, some (fileRecord (numberedFile 224) 2), some (fileRecord (numberedFile 224) 11))
    ∧ (runEditor [] (numberedFile 224) (downs 11 ++ ups 9 ++ ups 1)).map
        (fun s => (s.lineOffset, s.y, windowRecord s 0, windowRecord s 1, windowRecord s 9))
      = .ok (1, 0, some (fileRecord (numberedFile 224) 0), some (fileRecord (numberedFile 224) 2),
             some (fileRecord (numberedFile 224) 11))
    ∧ fileRecord (numberedFile 224) 0 ≠ fileRecord (numberedFile 224) (2 - 1) :=
  ⟨rfl, rfl, by decide⟩

/-- C8 (evaluation at the failing input): on a file of 14 records, with
`lineOffset = 0` and the cursor on the bottom row, a Down key sets
`lineOffset = 1` and moves the old records up by one, but puts file record
11, not file record `0 + 10`, at window index 9. -/
theorem scrollDown_loads_record_one_below :
    (runEditor [] (numberedFile 224) (downs 9)).map
        (fun s => (s.lineOffset, s.y, s.bufferHeight, windowRecord s 0, windowRecord s 1,
                   windowRecord s 9))
      = .ok (0, 9, 10, some (fileRecord (numberedFile 224) 0),
             some (fileRecord (numberedFile 224) 1), some (fileRecord (numberedFile 224) 9))
    ∧ (runEditor [] (numberedFile 224) (downs 9 ++ downs 1)).map
        (fun s => (s.lineOffset, s.y, windowRecord s 0, windowRecord s 8, windowRecord s 9))
      = .ok (1, 9, some (fileRecord (numberedFile 224) 1),
             some (fileRecord (numberedFile 224) 9), some (fileRecord (numberedFile 224) 11))
    ∧ fileRecord (numberedFile 224) 11 ≠ fileRecord (numberedFile 224) (0 + 10) :=
  ⟨rfl, rfl, by decide⟩

/-- C9: with `lineOffset = 0` and the cursor on row 0, an Up key is handled
and changes at most the editor state and the `written` flag: `lineOffset`,
the window deque, the cursor and the file stay as they are.  The same holds
for `lineOffset`, window and cursor over a whole round of the loop (flush
included) whenever the round completes. -/
theorem up_at_file_start_is_noop (s : State) (hl : s.lineOffset = 0) (hy : s.y = 0) :
    (∃ s1, handleInput s (.escape 65) = .ok s1 ∧ s1.lineOffset = s.lineOffset
      ∧ s1.fileBuffer = s.fileBuffer ∧ s1.x = s.x ∧ s1.y = s.y ∧ s1.file = s.file)
    ∧ (∀ adjacent s2, iteration adjacent s (.escape 65) = .ok s2 →
        s2.lineOffset = s.lineOffset ∧ s2.fileBuffer = s.fileBuffer ∧ s2.x = s.x
        ∧ s2.y = s.y) := by
  have key : ∀ t : State, t.lineOffset = 0 → t.y = 0 →
      ∃ t1, handleInput t (.escape 65) = .ok t1 ∧ t1.lineOffset = t.lineOffset
        ∧ t1.fileBuffer = t.fileBuffer ∧ t1.x = t.x ∧ t1.y = t.y ∧ t1.file = t.file := by
    intro t hl hy
    by_cases he : t.editorState = .editing
    · exact ⟨{ t with written := false, editorState := .browsing },
        by simp [handleInput, keyUp, he, hl, hy], rfl, rfl, rfl, rfl, rfl⟩
    · exact ⟨t, by simp [handleInput, keyUp, he, hl, hy], rfl, rfl, rfl, rfl, rfl⟩
  refine ⟨key s hl hy, ?_⟩
  intro adjacent s2 h
  unfold iteration at h
  cases hf : flushUnwritten adjacent s with
  | error e => rw [hf] at h; cases h
  | ok t =>
      rw [hf] at h
      obtain ⟨f1, f2, f3, f4⟩ := flushUnwritten_frame adjacent s t hf
      obtain ⟨t1, ht1, g1, g2, g3, g4, _⟩ := key t (f1.trans hl) (f4.trans hy)
      have : s2 = t1 := by
        have h' : handleInput t (.escape 65) = .ok s2 := h
        rw [ht1] at h'
        exact (Except.ok.inj h').symm
      subst this
      exact ⟨g1.trans f1, g2.trans f2, g3.trans f3, g4.trans f4⟩

/-- Witness for C9: the freshly opened 32-byte file. -/
theorem up_at_file_start_is_noop_witness :
    opened32.lineOffset = 0 ∧ opened32.y = 0 ∧
    ((∃ s1, handleInput opened32 (.escape 65) = .ok s1 ∧ s1.lineOffset = opened32.lineOffset
      ∧ s1.fileBuffer = opened32.fileBuffer ∧ s1.x = opened32.x ∧ s1.y = opened32.y
      ∧ s1.file = opened32.file)
    ∧ (∀ adjacent s2, iteration adjacent opened32 (.escape 65) = .ok s2 →
        s2.lineOffset = opened32.lineOffset ∧ s2.fileBuffer = opened32.fileBuffer
        ∧ s2.x = opened32.x ∧ s2.y = opened32.y)) :=
  ⟨rfl, rfl, up_at_file_start_is_noop opened32 rfl rfl⟩

/-- C10 (evaluation at the failing input): on a file of exactly 11 records
(176 bytes), after ten Down keys the cursor is on the bottom row with
`lineOffset + 10 = 11 = lineSize`; one more Down key is not refused: it sets
`lineOffset = 2` and replaces the window records, the new bottom record
being read wholly past the end of the file. -/
theorem scrollDown_not_refused_at_file_end :
    (runEditor [] (numberedFile 176) (downs 10)).map
        (fun s => (s.lineOffset, s.y, s.bufferHeight, s.lineSize, s.size, windowRecord s 0))
      = .ok (1, 9, 10, 11, 176, some (fileRecord (numberedFile 176) 1))
    ∧ (runEditor [] (numberedFile 176) (downs 10 ++ downs 1)).map
        (fun s => (s.lineOffset, s.y, windowRecord s 0, windowRecord s 9))
      = .ok (2, 9, some (fileRecord (numberedFile 176) 2), some (List.replicate 16 none)) :=
  ⟨rfl, rfl⟩

/-- C11 (evaluation at the failing input): on a file of 160 bytes (ten
records) `bufferHeight` is 11, so ten Down keys put the cursor on row 10,
while the window deque has the ten slots 0..9: there is no record under the
cursor, and a hex key typed there has no determined effect. -/
theorem cursor_row_leaves_window :
    (runEditor [] (numberedFile 160) (downs 10)).map
        (fun s => (s.x, s.y, s.bufferHeight, s.fileBuffer.length, s.fileBuffer.front,
                   s.fileBuffer.d.length, windowRecord s 9, windowRecord s 10,
                   readDequeByte s.fileBuffer s.y s.x))
      = .ok (0, 10, 11, 10, 9, 10, some (fileRecord (numberedFile 160) 9), none,
             .error .undefined)
    ∧ runEditor [] (numberedFile 160) (downs 10 ++ [.other 52]) = .error .undefined :=
  ⟨rfl, rfl⟩

/-- C13 (evaluation at the failing inputs): for a file of 160 bytes
`loadFile` sets `bufferHeight` to 11, above `BUFFER_HEIGHT`; for a file of
16 bytes (one line) it sets 2, for 144 bytes (nine lines) it sets 10. -/
theorem bufferHeight_off_by_one_on_aligned_files :
    (loadFile startState (numberedFile 160)).bufferHeight = 11
    ∧ (loadFile startState (numberedFile 175)).bufferHeight = 11
    ∧ (loadFile startState (numberedFile 16)).bufferHeight = 2
    ∧ (16 + 15) / 16 = 1
    ∧ (loadFile startState (numberedFile 144)).bufferHeight = 10
    ∧ (144 + 15) / 16 = 9 :=
  ⟨rfl, rfl, rfl, rfl, rfl, rfl⟩

/-- C14 (evaluation at the failing inputs): for a file of 5 bytes `loadFile`
sets `lineSize` to 0 and for a file of 17 bytes to 1, where the rounded-up
quotients are 1 and 2; in general `lineSize` is the rounded-down quotient. -/
theorem lineSize_rounds_down :
    (loadFile startState [0x00, 0x11, 0x22, 0x33, 0x44]).lineSize = 0
    ∧ (5 + 15) / 16 = 1
    ∧ (loadFile startState (numberedFile 17)).lineSize = 1
    ∧ (17 + 15) / 16 = 2
    ∧ ∀ bytes : List Nat, (loadFile startState bytes).lineSize = bytes.length % 2 ^ 64 / 16 :=
  ⟨rfl, rfl, rfl, rfl, fun _ => rfl⟩

/-- C15 (evaluation at the failing input): on a file of 160 bytes, eleven
Down keys lead to `lineOffset = 1` with `bufferHeight = 11` and
`lineSize = 10`, so `lineOffset + bufferHeight - 1 = 11` exceeds the line
count 10. -/
theorem lineOffset_range_broken_on_ten_line_file :
    (runEditor [] (numberedFile 160) (downs 11)).map
        (fun s => (s.lineOffset, s.bufferHeight, s.lineSize, s.size, s.y,
                   decide ((s.lineOffset : Int) + s.bufferHeight - 1 ≤ s.lineSize)))
      = .ok (1, 11, 10, 160, 10, false)
    ∧ (160 + 15) / 16 = 10 :=
  ⟨rfl, rfl⟩

/-- C16 (evaluation at the failing input): on a file of 32 bytes `0x11`, five
Right keys, the keys `7` and `F` and the flush write `0x7F` at offset 5 and,
when the byte that follows the argument `ch` in memory is `0x01`, also `0x01`
at offset 6; only when a zero byte follows `ch` is offset 5 the one byte
changed. -/
theorem flush_writes_string_not_byte :
    ((runEditor [0x01] (List.replicate 32 0x11) (rights 5 ++ [.other 55, .other 70])).bind
        (flushUnwritten [0x01])).map (fun s => (s.lineOffset, s.y, s.x, s.file.bytes))
      = .ok (0, 0, 5, ((List.replicate 32 0x11).set 5 0x7F).set 6 0x01)
    ∧ ((runEditor [] (List.replicate 32 0x11) (rights 5 ++ [.other 55, .other 70])).bind
        (flushUnwritten [])).map (fun s => (s.lineOffset, s.y, s.x, s.file.bytes))
      = .ok (0, 0, 5, (List.replicate 32 0x11).set 5 0x7F)
    ∧ (((List.replicate 32 0x11).set 5 0x7F).set 6 0x01).get? 6
        ≠ (List.replicate 32 0x11).get? 6 :=
  ⟨rfl, rfl, by decide⟩

/-- C18 (evaluation at the failing input): in Browsing with nothing pending,
the key `z` clears `written`; with `lineOffset = 1` and the cursor on row 0
the next flush then writes the window byte `0x01` at file offset 1, whose
value was `0x00`, although nothing was edited. -/
theorem non_hex_key_marks_dirty :
    (opened32.editorState, opened32.written) = (.browsing, true)
    ∧ (handleInput opened32 (.other 122)).map (fun s => (s.editorState, s.written))
      = .ok (.browsing, false)
    ∧ (runEditor [] (numberedFile 192) (downs 10 ++ ups 9)).map
        (fun s => (s.editorState, s.written, s.lineOffset, s.y, s.x, s.file.bytes))
      = .ok (.browsing, true, 1, 0, 0, numberedFile 192)
    ∧ ((runEditor [] (numberedFile 192) (downs 10 ++ ups 9 ++ [.other 122])).bind
        (flushUnwritten [])).map (fun s => (s.written, s.file.bytes))
      = .ok (true, (numberedFile 192).set 1 0x01)
    ∧ (numberedFile 192).get? 1 = some 0x00 :=
  ⟨rfl, rfl, rfl, rfl, rfl⟩

/-- C20: `convertHexChar` returns `c - '0'` on `'0'..'9'`, `10 + (c - 'A')`
on `'A'..'F'`, `10 + (c - 'a')` on `'a'..'f'` and `-1` on every other
character; the result lies in `0..15` exactly for the hex digits, and a
capital letter decodes to the same value as its small letter. -/
theorem convertHexChar_decodes (c : Int) :
    ((48 ≤ c ∧ c ≤ 57) → convertHexChar c = c - 48)
    ∧ ((65 ≤ c ∧ c ≤ 70) → convertHexChar c = 10 + (c - 65))
    ∧ ((97 ≤ c ∧ c ≤ 102) → convertHexChar c = 10 + (c - 97))
    ∧ (¬ (48 ≤ c ∧ c ≤ 57) ∧ ¬ (65 ≤ c ∧ c ≤ 70) ∧ ¬ (97 ≤ c ∧ c ≤ 102) →
        convertHexChar c = -1)
    ∧ ((0 ≤ convertHexChar c ∧ convertHexChar c ≤ 15) ↔
        ((48 ≤ c ∧ c ≤ 57) ∨ (65 ≤ c ∧ c ≤ 70) ∨ (97 ≤ c ∧ c ≤ 102)))
    ∧ ((65 ≤ c ∧ c ≤ 70) → convertHexChar c = convertHexChar (c + 32)) := by
  unfold convertHexChar
  refine ⟨?_, ?_, ?_, ?_, ?_, ?_⟩
  · intro h; split_ifs <;> omega
  · intro h; split_ifs <;> omega
  · intro h; split_ifs <;> omega
  · intro h; split_ifs <;> omega
  · split_ifs <;> omega
  · intro h; split_ifs <;> omega

/-- Witness for C20: the characters `F` and `f`. -/
theorem convertHexChar_decodes_witness :
    convertHexChar 70 = 10 + (70 - 65) ∧ convertHexChar 70 = convertHexChar (70 + 32) :=
  ⟨(convertHexChar_decodes 70).2.1 ⟨by decide, by decide⟩,
   (convertHexChar_decodes 70).2.2.2.2.2 ⟨by decide, by decide⟩⟩

/-- C17 (counterexample): on the 16-byte file `01 AA 00 01 ..` the search for
`AA 00` succeeds with offset 1, and afterwards `lineOffset`, row and column
are all 0, so `(lineOffset + y) * 16 + x` is 0, not 1. -/
theorem search_keeps_cursor_at_origin :
    searchFile searchSample [0xAA, 0x00] = .ok (1, true)
    ∧ (handleInput (opened searchSample) (.search [0xAA, 0x00])).map
        (fun s => (s.lineOffset, s.y, s.x, decide (((s.lineOffset : Int) + s.y) * 16 + s.x = 1)))
      = .ok (0, 0, 0, false) :=
  ⟨rfl, rfl⟩

/-- C17 (amended): when `searchAlgorithm` succeeds with offset `p`, the search
input is handled and changes only the stream and `foundFlag` (reset to 0):
`lineOffset`, the cursor, the window and the editor state stay as they were,
whatever `p` is. -/
theorem search_leaves_view (s : State) (searchBuffer : List Nat) (p : Nat) (f1 : FILE)
    (h : searchAlgorithm s.file s.size s.foundFlag searchBuffer searchBuffer.length
          = .ok (p, true, f1)) :
    ∃ s1, handleInput s (.search searchBuffer) = .ok s1
      ∧ s1 = { s with file := f1, foundFlag := false }
      ∧ s1.lineOffset = s.lineOffset ∧ s1.x = s.x ∧ s1.y = s.y
      ∧ s1.fileBuffer = s.fileBuffer ∧ s1.editorState = s.editorState
      ∧ s1.written = s.written := by
  refine ⟨{ s with file := f1, foundFlag := false }, ?_, rfl, rfl, rfl, rfl, rfl, rfl, rfl⟩
  simp [handleInput, h]

/-- Witness for C17 (amended): the search for `AA 00` in the sample file. -/
theorem search_leaves_view_witness :
    ∃ s1, handleInput (opened searchSample) (.search [0xAA, 0x00]) = .ok s1
      ∧ s1 = { opened searchSample with
                file := { bytes := searchSample, pos := 0 }, foundFlag := false }
      ∧ s1.lineOffset = (opened searchSample).lineOffset
      ∧ s1.x = (opened searchSample).x ∧ s1.y = (opened searchSample).y
      ∧ s1.fileBuffer = (opened searchSample).fileBuffer
      ∧ s1.editorState = (opened searchSample).editorState
      ∧ s1.written = (opened searchSample).written :=
  search_leaves_view (opened searchSample) [0xAA, 0x00] 1
    { bytes := searchSample, pos := 0 } rfl

/-- C19 (counterexample): on the freshly opened 32-byte file the key `7`
leaves the byte under the cursor with the value `0x07`, not `0x70`. -/
theorem first_digit_is_not_shifted :
    (handleInput opened32 (.other 55)).map
        (fun s => (s.editorState, s.written, readDequeByte s.fileBuffer 0 0))
      = .ok (.editing, false, .ok 0x07)
    ∧ (0x07 : Nat) ≠ 7 * 16 :=
  ⟨rfl, by decide⟩

/-! ### Navigation keys that do not scroll -/

theorem keyUp_unscrolled {t t2 : State} (h : keyUp t = .ok t2)
    (hl : t2.lineOffset = t.lineOffset) :
    t2.fileBuffer = t.fileBuffer ∧ t2.editorState = t.editorState
      ∧ t2.written = t.written := by
  unfold keyUp at h
  split_ifs at h with h1 h2
  · cases h; exact ⟨rfl, rfl, rfl⟩
  · cases h; exact ⟨rfl, rfl, rfl⟩
  · dsimp only at h
    generalize pushDequeBack t.fileBuffer _ = r at h
    cases r with
    | error e => cases h
    | ok q =>
        cases h
        exfalso
        simp only at hl
        omega

theorem keyDown_unscrolled {t t2 : State} (h : keyDown t = .ok t2)
    (hl : t2.lineOffset = t.lineOffset) :
    t2.fileBuffer = t.fileBuffer ∧ t2.editorState = t.editorState
      ∧ t2.written = t.written := by
  unfold keyDown at h
  split_ifs at h with h1 h2
  · cases h; exact ⟨rfl, rfl, rfl⟩
  · cases h; exact ⟨rfl, rfl, rfl⟩
  · dsimp only at h
    generalize pushDequeFront t.fileBuffer _ = r at h
    cases r with
    | error e => cases h
    | ok q =>
        cases h
        exfalso
        simp only at hl
        omega

theorem escape_unscrolled {t t2 : State} {k : Int} (h : handleInput t (.escape k) = .ok t2)
    (he : t.editorState = .editing) (hl : t2.lineOffset = t.lineOffset) :
    t2.fileBuffer = t.fileBuffer ∧ t2.editorState = .browsing ∧ t2.written = false := by
  simp only [handleInput, he, if_true] at h
  split_ifs at h with h1 h2
  · exact keyUp_unscrolled h hl
  · exact keyDown_unscrolled h hl
  all_goals (cases h; exact ⟨rfl, rfl, rfl⟩)

/-- C19 (amended): from Browsing with the cursor on a byte of a live window
record, the key for the hex digit `d` is handled, leaves the byte under the
cursor with the value `d` itself (the digit in the low nibble), moves the
editor to Editing and clears `written`, changing no other window byte.  When
the edit is then aborted by a non-hex key, or by a navigation key that does
not scroll the window, the editor is back in Browsing with `written` clear
and the value `d` is still at that position of the window. -/
theorem first_digit_goes_to_low_nibble (s : State) (c : Int) (d : Nat) (l : Line)
    (hb : s.editorState = .browsing) (hy : 0 ≤ s.y) (hx : 0 ≤ s.x)
    (hl : s.fileBuffer.d.get? s.y.toNat = some (some l)) (hxl : s.x.toNat < l.length)
    (h1 : convertHexChar (toChar c) = (d : Int)) :
    ∃ s1, handleInput s (.other c) = .ok s1
      ∧ s1.editorState = .editing ∧ s1.written = false
      ∧ d ≤ 15 ∧ readDequeByte s1.fileBuffer s.y s.x = .ok d
      ∧ s1.fileBuffer.d = s.fileBuffer.d.set s.y.toNat (some (l.set s.x.toNat (some d)))
      ∧ s1.x = s.x ∧ s1.y = s.y ∧ s1.lineOffset = s.lineOffset
      ∧ (∀ c2, convertHexChar (toChar c2) = -1 →
          ∃ s2, handleInput s1 (.other c2) = .ok s2 ∧ s2.editorState = .browsing
            ∧ s2.written = false ∧ readDequeByte s2.fileBuffer s.y s.x = .ok d)
      ∧ (∀ k, k ≠ 65 → k ≠ 66 → ∃ s2, handleInput s1 (.escape k) = .ok s2
            ∧ s2.lineOffset = s.lineOffset)
      ∧ (∀ k s2, handleInput s1 (.escape k) = .ok s2 → s2.lineOffset = s.lineOffset →
          s2.editorState = .browsing ∧ s2.written = false
            ∧ readDequeByte s2.fileBuffer s.y s.x = .ok d) := by
  have hd := convertHexChar_le _ _ h1
  have hlen : s.y.toNat < s.fileBuffer.d.length := by
    rcases List.get?_eq_some.mp hl with ⟨h, _⟩
    exact h
  have hv : ¬ ((d : Int) = -1) := by omega
  have e1 : (((d : Int) % 256).toNat) = d := by omega
  let q1 : deque := { s.fileBuffer with
    d := s.fileBuffer.d.set s.y.toNat (some (l.set s.x.toNat (some d))) }
  have hs1 : handleInput s (.other c)
      = .ok { s with fileBuffer := q1, editorState := .editing, written := false } := by
    simp only [handleInput, h1, hv, if_false, hb, writeDequeByte_ok _ hy hx hl hxl, bind,
      Except.bind, e1]
  have hl1 : q1.d.get? s.y.toNat = some (some (l.set s.x.toNat (some d))) := by
    simp [q1, List.getElem?_set, hlen]
  have hb1 : (l.set s.x.toNat (some d)).get? s.x.toNat = some (some d) := by
    simp [List.getElem?_set, hxl]
  have hr : readDequeByte q1 s.y s.x = .ok d := readDequeByte_ok hy hx hl1 hb1
  refine ⟨_, hs1, rfl, rfl, hd, hr, rfl, rfl, rfl, rfl, ?_, ?_, ?_⟩
  · intro c2 hc2
    refine ⟨{ s with fileBuffer := q1, editorState := .browsing, written := false },
      ?_, rfl, rfl, hr⟩
    simp only [handleInput, hc2, if_true]
  · intro k k1 k2
    by_cases k3 : k = 67
    · refine ⟨{ s with
          fileBuffer := q1, editorState := .browsing, written := false,
          x := if s.x < 15 then s.x + 1 else 15 }, ?_, rfl⟩
      subst k3
      simp [handleInput]
    · by_cases k4 : k = 68
      · refine ⟨{ s with
            fileBuffer := q1, editorState := .browsing, written := false,
            x := if s.x > 0 then s.x - 1 else 0 }, ?_, rfl⟩
        subst k4
        simp [handleInput]
      · refine ⟨{ s with fileBuffer := q1, editorState := .browsing, written := false },
          ?_, rfl⟩
        simp only [handleInput, k1, k2, k3, k4, if_true, if_false]
  · intro k s2 h2 hlo
    obtain ⟨g1, g2, g3⟩ := escape_unscrolled h2 rfl hlo
    refine ⟨g2, g3, ?_⟩
    rw [g1]
    exact hr

/-- Witness for C19 (amended): the key `7` on the freshly opened 32-byte
file. -/
theorem first_digit_goes_to_low_nibble_witness :
    ∃ s1, handleInput opened32 (.other 55) = .ok s1
      ∧ s1.editorState = .editing ∧ s1.written = false
      ∧ 7 ≤ 15 ∧ readDequeByte s1.fileBuffer opened32.y opened32.x = .ok 7
      ∧ s1.fileBuffer.d = opened32.fileBuffer.d.set opened32.y.toNat
          (some ((List.replicate 16 (some 17)).set opened32.x.toNat (some 7)))
      ∧ s1.x = opened32.x ∧ s1.y = opened32.y ∧ s1.lineOffset = opened32.lineOffset
      ∧ (∀ c2, convertHexChar (toChar c2) = -1 →
          ∃ s2, handleInput s1 (.other c2) = .ok s2 ∧ s2.editorState = .browsing
            ∧ s2.written = false
            ∧ readDequeByte s2.fileBuffer opened32.y opened32.x = .ok 7)
      ∧ (∀ k, k ≠ 65 → k ≠ 66 → ∃ s2, handleInput s1 (.escape k) = .ok s2
            ∧ s2.lineOffset = opened32.lineOffset)
      ∧ (∀ k s2, handleInput s1 (.escape k) = .ok s2 →
          s2.lineOffset = opened32.lineOffset →
          s2.editorState = .browsing ∧ s2.written = false
            ∧ readDequeByte s2.fileBuffer opened32.y opened32.x = .ok 7) :=
  first_digit_goes_to_low_nibble opened32 55 7 (List.replicate 16 (some 17))
    rfl (by decide) (by decide) rfl (by decide) rfl

/-! ### The cursor invariant on files that do not have exactly ten whole records -/

theorem gridInv_keyUp {n : Nat} {s t : State} (h : keyUp s = .ok t) (hi : gridInv n s) :
    gridInv n t := by
  obtain ⟨i1, i2, i3, i4, i5, i6, i7, i8, i9⟩ := hi
  unfold keyUp at h
  split_ifs at h with h1 h2
  · cases h
    exact ⟨i1, i2, i3, i4, by simp only; omega, by simp only; omega, i7, i8, i9⟩
  · cases h
    exact ⟨i1, i2, i3, i4, i5, i6, i7, i8, i9⟩
  · dsimp only at h
    generalize pushDequeBack s.fileBuffer _ = r at h
    cases r with
    | error e => cases h
    | ok q =>
        cases h
        refine ⟨i1, i2, i3, i4, i5, i6, ?_, i8, i9⟩
        simp only
        omega

theorem gridInv_keyDown {n : Nat} (hn : n ≠ 10) {s t : State} (h : keyDown s = .ok t)
    (hi : gridInv n s) : gridInv n t := by
  obtain ⟨i1, i2, i3, i4, i5, i6, i7, i8, i9⟩ := hi
  unfold keyDown at h
  split_ifs at h with h1 h2
  · cases h
    exact ⟨i1, i2, i3, i4, by simp only; omega, by simp only; omega, i7, i8, i9⟩
  · cases h
    exact ⟨i1, i2, i3, i4, i5, i6, i7, i8, i9⟩
  · dsimp only at h
    generalize pushDequeFront s.fileBuffer _ = r at h
    cases r with
    | error e => cases h
    | ok q =>
        cases h
        simp only [BUFFER_HEIGHT] at h2
        refine ⟨i1, i2, i3, i4, i5, i6, ?_, i8, i9⟩
        simp only
        omega

theorem gridInv_handleInput {n : Nat} (hn : n ≠ 10) {s t : State} (inp : Input)
    (h : handleInput s inp = .ok t) (hi : gridInv n s) : gridInv n t := by
  cases inp with
  | quit => cases h; exact hi
  | write => cases h; exact hi
  | search sb =>
      simp only [handleInput] at h
      generalize searchAlgorithm s.file s.size s.foundFlag sb sb.length = r at h
      cases r with
      | error e => cases h
      | ok v =>
          obtain ⟨p, found, f1⟩ := v
          dsimp only at h
          split_ifs at h <;> (cases h; exact hi)
  | escape d =>
      have hs1 : gridInv n (if s.editorState = .editing
          then { s with written := false, editorState := .browsing } else s) := by
        split_ifs
        · exact hi
        · exact hi
      simp only [handleInput] at h
      generalize (if s.editorState = .editing
          then { s with written := false, editorState := .browsing } else s) = s1 at h hs1
      by_cases d1 : d = 65
      · rw [if_pos d1] at h
        exact gridInv_keyUp h hs1
      · rw [if_neg d1] at h
        by_cases d2 : d = 66
        · rw [if_pos d2] at h
          exact gridInv_keyDown hn h hs1
        · rw [if_neg d2] at h
          obtain ⟨i1, i2, i3, i4, i5, i6, i7, i8, i9⟩ := hs1
          split_ifs at h
          all_goals (cases h; refine ⟨i1, i2, ?_, ?_, i5, i6, i7, i8, i9⟩ <;> (try dsimp only) <;> omega)
  | other c =>
      simp only [handleInput] at h
      split_ifs at h with hv
      · cases h; exact hi
      · cases he : s.editorState with
        | browsing =>
            rw [he] at h
            simp only [bind, Except.bind] at h
            generalize writeDequeByte s.fileBuffer s.y s.x _ = r at h
            cases r with
            | error e => cases h
            | ok q => cases h; exact hi
        | editing =>
            rw [he] at h
            simp only [bind, Except.bind] at h
            generalize readDequeByte s.fileBuffer s.y s.x = rb at h
            cases rb with
            | error e => cases h
            | ok b =>
                simp only at h
                generalize writeDequeByte s.fileBuffer s.y s.x _ = r at h
                cases r with
                | error e => cases h
                | ok q => cases h; exact hi

theorem gridInv_flushUnwritten {n : Nat} {s t : State} (adjacent : List Nat)
    (h : flushUnwritten adjacent s = .ok t) (hi : gridInv n s) : gridInv n t := by
  unfold flushUnwritten at h
  split_ifs at h with hc
  · simp only [bind, Except.bind] at h
    generalize readDequeByte s.fileBuffer s.y s.x = rb at h
    cases rb with
    | error e => cases h
    | ok b => cases h; exact hi
  · cases h; exact hi

theorem gridInv_mainLoop {n : Nat} (hn : n ≠ 10) (adjacent : List Nat) :
    ∀ (inputs : List Input) (s t : State),
      mainLoop adjacent inputs s = .ok t → gridInv n s → gridInv n t := by
  intro inputs
  induction inputs with
  | nil => intro s t h hi; cases h; exact hi
  | cons inp rest ih =>
      intro s t h hi
      simp only [mainLoop, bind, Except.bind] at h
      cases hf : flushUnwritten adjacent s with
      | error e => rw [hf] at h; cases h
      | ok s1 =>
          rw [hf] at h
          have hi1 := gridInv_flushUnwritten adjacent hf hi
          simp only at h
          split_ifs at h with hq
          · cases h; exact hi1
          · cases hh : handleInput s1 inp with
            | error e => rw [hh] at h; cases h
            | ok s2 =>
                rw [hh] at h
                exact ih s2 t h (gridInv_handleInput hn inp hh hi1)

theorem gridInv_openEditor {bytes : List Nat} {s : State} (h : openEditor bytes = .ok s) :
    gridInv (bytes.length % 2 ^ 64 / 16) s := by
  simp only [openEditor, bind, Except.bind] at h
  generalize readFileLines 0 BUFFER_HEIGHT (loadFile startState bytes).file
    (buildDeque BUFFER_HEIGHT 16) = r at h
  cases r with
  | error e => cases h
  | ok v =>
      cases h
      have hlt : bytes.length % 2 ^ 64 / 16 < 2 ^ 60 := by omega
      refine ⟨rfl, hlt, le_refl _, ?_, le_refl _, ?_, ?_, ?_, ?_⟩
      · show (0 : Int) ≤ 15
        decide
      · show (0 : Int) ≤ (loadFile startState bytes).bufferHeight - 1
        simp only [loadFile, startState, BUFFER_HEIGHT]
        split_ifs <;> omega
      · show ((0 : Nat) : Int) + (loadFile startState bytes).bufferHeight - 1
          ≤ ((bytes.length % 2 ^ 64 / 16 : Nat) : Int)
        simp only [loadFile, startState, BUFFER_HEIGHT]
        split_ifs <;> omega
      · intro hle
        show (loadFile startState bytes).bufferHeight
          = ((bytes.length % 2 ^ 64 / 16 : Nat) : Int) + 1
        simp only [loadFile, startState, BUFFER_HEIGHT]
        split_ifs
        omega
      · intro hgt
        show (loadFile startState bytes).bufferHeight = 10
        simp only [loadFile, startState, BUFFER_HEIGHT]
        split_ifs <;> omega

/-- C12 (counterexample): on the five-byte file, five Right keys put the
cursor on column 5 of row 0, that is on file offset 5, which is the file
size; the keys `4` and `1` and the flush then write `0x41` at offset 5 and
the file grows to six bytes. -/
theorem flush_appends_past_end_of_short_file :
    (runEditor [] shortFile (rights 5)).map (fun s => (s.lineOffset, s.y, s.x, s.size))
      = .ok (0, 0, 5, 5)
    ∧ ((runEditor [] shortFile (rights 5 ++ [.other 52, .other 49])).bind
        (flushUnwritten [])).map
        (fun s => (s.lineOffset, s.y, s.x, s.size, s.file.bytes))
      = .ok (0, 0, 5, 5, [0x00, 0x11, 0x22, 0x33, 0x44, 0x41]) :=
  ⟨rfl, rfl⟩

/-! ### The shifting loops of the deque -/

theorem get?_append_cons {α : Type} (pre : List α) (a : α) (rest : List α) :
    (pre ++ a :: rest).get? pre.length = some a := by
  induction pre with
  | nil => rfl
  | cons p pre ih => simpa using ih

theorem get?_append_cons_succ {α : Type} (pre : List α) (a b : α) (rest : List α) :
    (pre ++ a :: b :: rest).get? (pre.length + 1) = some b := by
  induction pre with
  | nil => rfl
  | cons p pre ih => simpa using ih

theorem set_append_cons {α : Type} (pre : List α) (a v : α) (rest : List α) :
    (pre ++ a :: rest).set pre.length v = pre ++ v :: rest := by
  induction pre with
  | nil => rfl
  | cons p pre ih => simp [ih]

theorem memcpy_self {l : Line} {n : Nat} (h : l.length = n) : memcpy l n = l := by
  subst h
  apply List.ext_getElem?
  intro k
  simp only [memcpy, List.getElem?_map, List.getElem?_range']
  by_cases hk : k < l.length
  · simp [List.getElem?_range, hk, List.getElem?_eq_getElem]
  · have hk2 : l.length ≤ k := not_lt.mp hk
    have hk3 : (List.range l.length).length ≤ k := by simpa using hk2
    rw [List.getElem?_eq_none hk2, List.getElem?_eq_none hk3]
    rfl

theorem memcpy_length (l : Line) (n : Nat) : (memcpy l n).length = n := by
  simp [memcpy]

theorem deleteDequeBackLoop_shift (al : Nat) :
    ∀ (ys : List Line) (pre : List (Option Line)) (x : Line) (post : List (Option Line)),
      (∀ y ∈ ys, y.length = al) →
      deleteDequeBackLoop al ys.length (pre.length + 1)
          (pre ++ some x :: (ys.map some ++ post))
        = .ok (pre ++ (ys.map some ++ some (ys.getLastD x) :: post)) := by
  intro ys
  induction ys with
  | nil => intro pre x post _; simp [deleteDequeBackLoop]
  | cons y ys ih =>
      intro pre x post hy
      have hyl : y.length = al := hy y (List.mem_cons_self _ _)
      have hys : ∀ z ∈ ys, z.length = al := fun z hz => hy z (List.mem_cons_of_mem _ hz)
      have e0 : (((pre.length + 1 : Nat) : Int) - 1).toNat = pre.length := by omega
      have e1 : (((pre.length + 1 : Nat) : Int)).toNat = pre.length + 1 := by omega
      have hd : pre ++ some x :: ((y :: ys).map some ++ post)
          = pre ++ some x :: some y :: (ys.map some ++ post) := by simp
      have h0 : slot (pre ++ some x :: some y :: (ys.map some ++ post))
          (((pre.length + 1 : Nat) : Int) - 1) = .ok x := by
        apply slot_ok (by omega)
        rw [e0, get?_append_cons]
      have h1 : slot (pre ++ some x :: some y :: (ys.map some ++ post))
          ((pre.length + 1 : Nat) : Int) = .ok y := by
        apply slot_ok (by omega)
        rw [e1, get?_append_cons_succ]
      have h2 : setSlot (pre ++ some x :: some y :: (ys.map some ++ post))
          (((pre.length + 1 : Nat) : Int) - 1) (some (memcpy y al))
            = .ok ((pre ++ [some y]) ++ some y :: (ys.map some ++ post)) := by
        rw [setSlot_ok _ (by omega) (by rw [e0]; simp), e0, memcpy_self hyl, set_append_cons]
        simp
      have ih' := ih (pre ++ [some y]) y post hys
      simp only [List.length_append, List.length_singleton] at ih'
      rw [hd]
      simp only [List.length_cons, deleteDequeBackLoop, h0, h1, h2, bind, Except.bind, ih',
        List.getLastD_cons]
      simp

theorem set_append_cons_succ {α : Type} (pre : List α) (a b v : α) (rest : List α) :
    (pre ++ a :: b :: rest).set (pre.length + 1) v = pre ++ a :: v :: rest := by
  induction pre with
  | nil => rfl
  | cons p pre ih => simp [ih]

theorem insertDequeBackLoop_shift :
    ∀ (xs : List (Option Line)) (z : Option Line) (post : List (Option Line)),
      insertDequeBackLoop xs.length (xs ++ z :: post) = .ok (xs.headD z :: (xs ++ post)) := by
  intro xs
  induction xs using List.reverseRecOn with
  | nil => intro z post; rfl
  | append_singleton xs x ih =>
      intro z post
      have hd : (xs ++ [x]) ++ z :: post = xs ++ x :: z :: post := by simp
      have hg : (xs ++ x :: z :: post).get? xs.length = some x := get?_append_cons _ _ _
      have e1 : (((xs.length : Nat) : Int) + 1).toNat = xs.length + 1 := by omega
      have hs : setSlot (xs ++ x :: z :: post) ((xs.length : Int) + 1) x
          = .ok (xs ++ x :: x :: post) := by
        rw [setSlot_ok _ (by omega) (by rw [e1]; simp), e1, set_append_cons_succ]
      have hh : (xs ++ [x]).headD z = xs.headD x := by cases xs <;> rfl
      rw [hd, List.length_append, List.length_singleton]
      simp only [insertDequeBackLoop, hg, hs, bind, Except.bind, ih x (x :: post), hh]
      simp

theorem fullDeque_cons (al : Nat) (e0 : Line) (t : List Line) :
    fullDeque al (e0 :: t)
      = { front := (t.length : Int), arrayLength := al, length := t.length + 1,
          d := some e0 :: t.map some } := by
  simp [fullDeque]

theorem fullDeque_concat (al : Nat) (xs : List Line) (x : Line) :
    fullDeque al (xs ++ [x])
      = { front := (xs.length : Int), arrayLength := al, length := xs.length + 1,
          d := xs.map some ++ [some x] } := by
  simp [fullDeque]

theorem deleteDequeBack_full (al n : Nat) (e0 : Line) (t : List Line)
    (hes : ∀ e ∈ t, e.length = al) :
    deleteDequeBack { front := (t.length : Int), arrayLength := al, length := n,
                      d := some e0 :: t.map some }
      = .ok { front := (t.length : Int) - 1, arrayLength := al, length := n,
              d := t.map some ++ [some (t.getLastD e0)] } := by
  have h := deleteDequeBackLoop_shift al t [] e0 [] hes
  simp only [List.nil_append, List.length_nil, Nat.zero_add, List.append_nil] at h
  simp only [deleteDequeBack, Int.toNat_ofNat, h, bind, Except.bind]

theorem insertDequeFront_last (al : Nat) (pre : List (Option Line)) (z : Option Line)
    (a : Line) :
    insertDequeFront { front := (pre.length : Int) - 1, arrayLength := al,
                       length := pre.length + 1, d := pre ++ [z] } a
      = .ok { front := (pre.length : Int), arrayLength := al, length := pre.length + 1,
              d := pre ++ [some (memcpy a al)] } := by
  have hnf : ¬ ((pre.length : Int) - 1 ≥ ((pre.length + 1 : Nat) : Int) - 1) := by omega
  have e : ((pre.length : Nat) : Int).toNat = pre.length := by omega
  have hset : setSlot (pre ++ [z]) (pre.length : Int) (some (memcpy a al))
      = .ok (pre ++ [some (memcpy a al)]) := by
    rw [setSlot_ok _ (by omega) (by rw [e]; simp), e, set_append_cons]
  simp only [insertDequeFront, hnf, if_false, hset, bind, Except.bind, sub_add_cancel]

theorem pushDequeFront_full (al : Nat) (es : List Line) (a : Line) (hne : es ≠ [])
    (hes : ∀ e ∈ es.tail, e.length = al) :
    pushDequeFront (fullDeque al es) a = .ok (fullDeque al (es.tail ++ [memcpy a al])) := by
  cases es with
  | nil => exact absurd rfl hne
  | cons e0 t =>
      have hfull : (t.length : Int) ≥ ((t.length + 1 : Nat) : Int) - 1 := by omega
      have hi := insertDequeFront_last al (t.map some) (some (t.getLastD e0)) a
      simp only [List.length_map] at hi
      rw [fullDeque_cons, List.tail_cons, fullDeque_concat]
      simp only [pushDequeFront, hfull, if_true, deleteDequeBack_full al _ e0 t hes, bind,
        Except.bind, hi, List.map_append, List.map_cons, List.map_nil]

theorem deleteDequeFront_full (al n : Nat) (xs : List Line) (x : Line) :
    deleteDequeFront { front := (xs.length : Int), arrayLength := al, length := n,
                       d := xs.map some ++ [some x] }
      = .ok { front := (xs.length : Int) - 1, arrayLength := al, length := n,
              d := xs.map some ++ [none] } := by
  have e0 : ((xs.length : Nat) : Int).toNat = (xs.map some).length := by simp
  have hslot : slot ((xs.map some) ++ [some x]) (xs.length : Int) = .ok x := by
    apply slot_ok (by omega)
    rw [e0, get?_append_cons]
  have hset : setSlot ((xs.map some) ++ [some x]) (xs.length : Int) none
      = .ok (xs.map some ++ [none]) := by
    rw [setSlot_ok _ (by omega) (by rw [e0]; simp), e0, set_append_cons]
  simp only [deleteDequeFront, hslot, hset, bind, Except.bind]

theorem insertDequeBack_last (al : Nat) (xs : List (Option Line)) (z : Option Line)
    (a : Line) :
    insertDequeBack { front := (xs.length : Int) - 1, arrayLength := al,
                      length := xs.length + 1, d := xs ++ [z] } a
      = .ok { front := (xs.length : Int), arrayLength := al, length := xs.length + 1,
              d := some a :: xs } := by
  have hnf : ¬ ((xs.length : Int) - 1 ≥ ((xs.length + 1 : Nat) : Int) - 1) := by omega
  have e : ((xs.length : Nat) : Int).toNat = xs.length := by omega
  have hloop := insertDequeBackLoop_shift xs z []
  have hset0 : setSlot (xs.headD z :: (xs ++ [])) 0 (some a) = .ok (some a :: xs) := by
    rw [setSlot_ok _ (by omega) (by simp)]
    simp
  simp only [insertDequeBack, hnf, if_false, e, hloop, hset0, bind, Except.bind,
    sub_add_cancel]

theorem pushDequeBack_full (al : Nat) (es : List Line) (a : Line) (hne : es ≠ []) :
    pushDequeBack (fullDeque al es) a = .ok (fullDeque al (a :: es.dropLast)) := by
  rcases List.eq_nil_or_concat es with h | ⟨xs, x, h⟩
  · exact absurd h hne
  · rw [List.concat_eq_append] at h
    subst h
    have hfull : (xs.length : Int) ≥ ((xs.length + 1 : Nat) : Int) - 1 := by omega
    have hi := insertDequeBack_last al (xs.map some) none a
    simp only [List.length_map] at hi
    rw [fullDeque_concat, List.dropLast_concat, fullDeque_cons]
    simp only [pushDequeBack, hfull, if_true, deleteDequeFront_full al _ xs x, bind,
      Except.bind, hi]

theorem insertDequeBack_notFull (q : deque) (xs : List (Option Line)) (z : Option Line)
    (post : List (Option Line)) (a : Line) (hd : q.d = xs ++ z :: post)
    (hf : q.front = (xs.length : Int) - 1) (hl : q.length = q.d.length) :
    insertDequeBack q a
      = .ok { q with d := some a :: (xs ++ post), front := q.front + 1 } := by
  have hlen : q.length = xs.length + (post.length + 1) := by rw [hl, hd]; simp
  have hnf : ¬ (q.front ≥ (q.length : Int) - 1) := by rw [hf, hlen]; push_cast; omega
  have e : (q.front + 1).toNat = xs.length := by rw [hf]; omega
  have hloop := insertDequeBackLoop_shift xs z post
  have hset0 : setSlot (xs.headD z :: (xs ++ post)) 0 (some a)
      = .ok (some a :: (xs ++ post)) := by
    rw [setSlot_ok _ (by omega) (by simp)]
    simp
  simp only [insertDequeBack, hnf, if_false, e, hd, hloop, hset0, bind, Except.bind]

/-- C21: `pushDequeFront` on the full deque that holds `e0 .. e(n-1)`, `n ≥ 1`,
returns the full deque that holds `e1, .., e(n-1), a` (same `front = n - 1`,
same length); on a deque that is not full it is `insertDequeFront`, which
stores a copy of `a` in slot `front + 1`, adds one to `front` and leaves the
other slots as they are.  Arrays have the element length of the deque. -/
theorem pushDequeFront_evicts_back (al : Nat) (es : List Line) (a : Line) (hne : es ≠ [])
    (hes : ∀ e ∈ es, e.length = al) (ha : a.length = al) :
    pushDequeFront (fullDeque al es) a = .ok (fullDeque al (es.tail ++ [a]))
    ∧ (fullDeque al (es.tail ++ [a])).front = (es.length : Int) - 1
    ∧ (fullDeque al (es.tail ++ [a])).length = es.length
    ∧ ∀ q : deque, q.arrayLength = al → q.d.length = q.length → -1 ≤ q.front →
        q.front < (q.length : Int) - 1 →
        pushDequeFront q a = insertDequeFront q a
        ∧ insertDequeFront q a
            = .ok { q with front := q.front + 1, d := q.d.set (q.front + 1).toNat (some a) }
        ∧ ∀ i : Nat, i ≠ (q.front + 1).toNat →
            (q.d.set (q.front + 1).toNat (some a)).get? i = q.d.get? i := by
  have htl : es.tail.length + 1 = es.length := by
    cases es with
    | nil => exact absurd rfl hne
    | cons e t => simp
  refine ⟨?_, ?_, ?_, ?_⟩
  · rw [pushDequeFront_full al es a hne (fun e he => hes e (List.mem_of_mem_tail he)),
      memcpy_self ha]
  · simp only [fullDeque, List.length_append, List.length_singleton]
    omega
  · simp only [fullDeque, List.length_append, List.length_singleton]
    omega
  · intro q hal hdl hlo hhi
    have hnf : ¬ (q.front ≥ (q.length : Int) - 1) := by omega
    have hset : setSlot q.d (q.front + 1) (some (memcpy a q.arrayLength))
        = .ok (q.d.set (q.front + 1).toNat (some a)) := by
      rw [setSlot_ok _ (by omega) (by omega), hal, memcpy_self ha]
    refine ⟨by simp only [pushDequeFront, hnf, if_false], ?_, ?_⟩
    · simp only [insertDequeFront, hnf, if_false, hset, bind, Except.bind]
    · intro i hi
      simp [List.getElem?_set, Ne.symm hi]

/-- Witness for C21: a deque of two two-byte arrays. -/
theorem pushDequeFront_evicts_back_witness :
    pushDequeFront (fullDeque 2 [[some 1, some 2], [some 3, some 4]]) [some 5, some 6]
      = .ok (fullDeque 2 ([[some 1, some 2], [some 3, some 4]].tail ++ [[some 5, some 6]]))
    ∧ (fullDeque 2 ([[some 1, some 2], [some 3, some 4]].tail ++ [[some 5, some 6]])).front
        = (([[some 1, some 2], [some 3, some 4]] : List Line).length : Int) - 1
    ∧ (fullDeque 2 ([[some 1, some 2], [some 3, some 4]].tail ++ [[some 5, some 6]])).length
        = ([[some 1, some 2], [some 3, some 4]] : List Line).length
    ∧ ∀ q : deque, q.arrayLength = 2 → q.d.length = q.length → -1 ≤ q.front →
        q.front < (q.length : Int) - 1 →
        pushDequeFront q [some 5, some 6] = insertDequeFront q [some 5, some 6]
        ∧ insertDequeFront q [some 5, some 6]
            = .ok { q with front := q.front + 1,
                           d := q.d.set (q.front + 1).toNat (some [some 5, some 6]) }
        ∧ ∀ i : Nat, i ≠ (q.front + 1).toNat →
            (q.d.set (q.front + 1).toNat (some [some 5, some 6])).get? i = q.d.get? i :=
  pushDequeFront_evicts_back 2 [[some 1, some 2], [some 3, some 4]] [some 5, some 6]
    (by decide) (by decide) (by decide)

/-- C22: `pushDequeBack` on the full deque that holds `e0 .. e(n-1)`, `n ≥ 1`,
returns the full deque that holds `a, e0, .., e(n-2)` (same `front = n - 1`,
same length); on a deque that is not full, with the slots `xs` in use, it is
`insertDequeBack`, which puts `a` in slot 0, moves every slot of `xs` up by
one and adds one to `front`. -/
theorem pushDequeBack_evicts_front (al : Nat) (es : List Line) (a : Line) (hne : es ≠ []) :
    pushDequeBack (fullDeque al es) a = .ok (fullDeque al (a :: es.dropLast))
    ∧ (fullDeque al (a :: es.dropLast)).front = (es.length : Int) - 1
    ∧ (fullDeque al (a :: es.dropLast)).length = es.length
    ∧ ∀ (q : deque) (xs : List (Option Line)) (z : Option Line) (post : List (Option Line)),
        q.d = xs ++ z :: post → q.front = (xs.length : Int) - 1 → q.length = q.d.length →
        pushDequeBack q a = insertDequeBack q a
        ∧ insertDequeBack q a
            = .ok { q with d := some a :: (xs ++ post), front := q.front + 1 } := by
  have hdl : es.dropLast.length + 1 = es.length := by
    rw [List.length_dropLast]
    have : 0 < es.length := List.length_pos.mpr hne
    omega
  refine ⟨pushDequeBack_full al es a hne, ?_, ?_, ?_⟩
  · simp only [fullDeque, List.length_cons]
    omega
  · simp only [fullDeque, List.length_cons]
    omega
  · intro q xs z post hd hf hl
    have hlen : q.length = xs.length + (post.length + 1) := by rw [hl, hd]; simp
    have hnf : ¬ (q.front ≥ (q.length : Int) - 1) := by rw [hf, hlen]; push_cast; omega
    exact ⟨by simp only [pushDequeBack, hnf, if_false],
      insertDequeBack_notFull q xs z post a hd hf hl⟩

/-- Witness for C22: a deque of two two-byte arrays. -/
theorem pushDequeBack_evicts_front_witness :
    pushDequeBack (fullDeque 2 [[some 1, some 2], [some 3, some 4]]) [some 5, some 6]
      = .ok (fullDeque 2 ([some 5, some 6] :: [[some 1, some 2], [some 3, some 4]].dropLast))
    ∧ (fullDeque 2 ([some 5, some 6] :: [[some 1, some 2], [some 3, some 4]].dropLast)).front
        = (([[some 1, some 2], [some 3, some 4]] : List Line).length : Int) - 1
    ∧ (fullDeque 2 ([some 5, some 6] :: [[some 1, some 2], [some 3, some 4]].dropLast)).length
        = ([[some 1, some 2], [some 3, some 4]] : List Line).length
    ∧ ∀ (q : deque) (xs : List (Option Line)) (z : Option Line) (post : List (Option Line)),
        q.d = xs ++ z :: post → q.front = (xs.length : Int) - 1 → q.length = q.d.length →
        pushDequeBack q [some 5, some 6] = insertDequeBack q [some 5, some 6]
        ∧ insertDequeBack q [some 5, some 6]
            = .ok { q with d := some [some 5, some 6] :: (xs ++ post), front := q.front + 1 } :=
  pushDequeBack_evicts_front 2 [[some 1, some 2], [some 3, some 4]] [some 5, some 6]
    (by decide)

/-- C23 (evaluation at the failing input): on the empty deque of
`buildDeque(10, 16)` (`front = -1`) `deleteDequeBack` returns a deque with
`front = -2`, and `deleteDequeFront` frees `d[-1]`; neither exits, whereas
`insertDequeFront` on a full deque does. -/
theorem delete_on_empty_deque_returns :
    (buildDeque 10 16).front = -1
    ∧ deleteDequeBack (buildDeque 10 16) = .ok { buildDeque 10 16 with front := -2 }
    ∧ deleteDequeFront (buildDeque 10 16) = .error .undefined
    ∧ insertDequeFront (fullDeque 2 [[some 1, some 2]]) [some 3, some 4] = .error .exit :=
  ⟨rfl, rfl, rfl, rfl⟩

/-- C26: on the full deque that holds `e0 .. e(n-1)`, `n ≥ 1`, pushing any
array at the front and then `e0` at the back gives the deque back, slot by
slot and with the same `front`; so does pushing any array at the back and
then `e(n-1)` at the front.  Arrays have the element length of the deque. -/
theorem push_round_trip (al : Nat) (es : List Line) (a : Line) (hne : es ≠ [])
    (hes : ∀ e ∈ es, e.length = al) :
    (pushDequeFront (fullDeque al es) a).bind (fun q => pushDequeBack q (es.head hne))
      = .ok (fullDeque al es)
    ∧ (pushDequeBack (fullDeque al es) a).bind (fun q => pushDequeFront q (es.getLast hne))
      = .ok (fullDeque al es) := by
  constructor
  · rw [pushDequeFront_full al es a hne (fun e he => hes e (List.mem_of_mem_tail he))]
    simp only [Except.bind]
    rw [pushDequeBack_full al _ _ (by simp), List.dropLast_concat, List.head_cons_tail]
  · rw [pushDequeBack_full al es a hne]
    simp only [Except.bind]
    rw [pushDequeFront_full al _ _ (by simp)
        (fun e he => hes e (List.mem_of_mem_dropLast (by simpa using he))),
      List.tail_cons, memcpy_self (hes _ (List.getLast_mem hne)),
      List.dropLast_append_getLast]

/-- Witness for C26: a deque of two two-byte arrays. -/
theorem push_round_trip_witness :
    (pushDequeFront (fullDeque 2 [[some 1, some 2], [some 3, some 4]]) [some 5, some 6]).bind
        (fun q => pushDequeBack q [some 1, some 2])
      = .ok (fullDeque 2 [[some 1, some 2], [some 3, some 4]])
    ∧ (pushDequeBack (fullDeque 2 [[some 1, some 2], [some 3, some 4]]) [some 5, some 6]).bind
        (fun q => pushDequeFront q [some 3, some 4])
      = .ok (fullDeque 2 [[some 1, some 2], [some 3, some 4]]) :=
  push_round_trip 2 [[some 1, some 2], [some 3, some 4]] [some 5, some 6]
    (by decide) (by decide)

/-! ### The initial load -/

theorem fread_record (f : FILE) (i : Nat) :
    (fread (fseek f (0 + (i : Int) * 16)) 16).1 = fileRecord f.bytes i
    ∧ (fread (fseek f (0 + (i : Int) * 16)) 16).2.bytes = f.bytes := by
  have hp : ¬ (0 + (i : Int) * 16 < 0) := by omega
  have ht : (0 + (i : Int) * 16).toNat = 16 * i := by omega
  simp only [fread, fseek, hp, if_false, ht, fileRecord, and_self]

theorem fileRecord_length (bytes : List Nat) (k : Nat) : (fileRecord bytes k).length = 16 := by
  simp [fileRecord]

theorem fileRecord_inside (bytes : List Nat) (i : Nat) (h : 16 * i + 16 ≤ bytes.length) :
    fileRecord bytes i = ((bytes.drop (16 * i)).take 16).map some := by
  apply List.ext_getElem?
  intro k
  by_cases hk : k < 16
  · have h1 : 16 * i + k < bytes.length := by omega
    simp [fileRecord, List.getElem?_range, hk, List.getElem?_take, List.getElem?_drop,
      List.getElem?_eq_getElem h1]
  · have h1 : (fileRecord bytes i).length ≤ k := by rw [fileRecord_length]; omega
    have h2 : (((bytes.drop (16 * i)).take 16).map some).length ≤ k := by
      simp only [List.length_map, List.length_take, List.length_drop]
      omega
    rw [List.getElem?_eq_none h1, List.getElem?_eq_none h2]

theorem readFileLinesLoop_fill :
    ∀ (cnt i : Nat) (f : FILE) (q : deque), q.arrayLength = 16 → q.front = (i : Int) - 1 →
      q.length = q.d.length → i + cnt ≤ q.d.length →
      ∃ f1 q1, readFileLinesLoop 0 cnt i f q = .ok (f1, q1) ∧ f1.bytes = f.bytes
        ∧ q1.front = ((i + cnt : Nat) : Int) - 1 ∧ q1.arrayLength = 16
        ∧ q1.length = q.length ∧ q1.d.length = q.d.length
        ∧ (∀ k, k < i → q1.d.get? k = q.d.get? k)
        ∧ (∀ j, j < cnt → q1.d.get? (i + j) = some (some (fileRecord f.bytes (i + j)))) := by
  intro cnt
  induction cnt with
  | zero =>
      intro i f q hal hf hl hb
      exact ⟨f, q, rfl, rfl, by simpa using hf, hal, rfl, rfl, fun _ _ => rfl,
        fun j hj => absurd hj (Nat.not_lt_zero j)⟩
  | succ cnt ih =>
      intro i f q hal hf hl hb
      obtain ⟨hr1, hr2⟩ := fread_record f i
      have hnf : ¬ (q.front ≥ (q.length : Int) - 1) := by rw [hf, hl]; omega
      have e : (q.front + 1).toNat = i := by rw [hf]; omega
      have hset : setSlot q.d (q.front + 1) (some (memcpy (fileRecord f.bytes i) q.arrayLength))
          = .ok (q.d.set i (some (fileRecord f.bytes i))) := by
        rw [setSlot_ok _ (by omega) (by omega), e, hal, memcpy_self (fileRecord_length _ _)]
      have hins : insertDequeFront q (fileRecord f.bytes i)
          = .ok { q with front := q.front + 1, d := q.d.set i (some (fileRecord f.bytes i)) } := by
        simp only [insertDequeFront, hnf, if_false, hset, bind, Except.bind]
      obtain ⟨f1, q1, h1, hb1, hf1, hal1, hl1, hdl1, hk1, hj1⟩ :=
        ih (i + 1) (fread (fseek f (0 + (i : Int) * 16)) 16).2
          { q with front := q.front + 1, d := q.d.set i (some (fileRecord f.bytes i)) }
          hal (by simp only; rw [hf]; omega) (by simp only [List.length_set]; exact hl)
          (by simp only [List.length_set]; omega)
      refine ⟨f1, q1, ?_, hb1.trans hr2, ?_, hal1, hl1, ?_, ?_, ?_⟩
      · simp only [readFileLinesLoop, hr1, hins, bind, Except.bind]
        exact h1
      · rw [hf1]; omega
      · rw [hdl1]; simp
      · intro k hk
        rw [hk1 k (by omega)]
        have : i ≠ k := by omega
        simp [List.getElem?_set, this]
      · intro j hj
        cases j with
        | zero =>
            rw [Nat.add_zero, hk1 i (by omega)]
            have hi : i < q.d.length := by omega
            simp [List.getElem?_set, hi]
        | succ j =>
            have := hj1 j (by omega)
            rw [hr2] at this
            rw [show i + (j + 1) = i + 1 + j by omega]
            exact this

/-- C24: for every file, opening it succeeds and leaves `lineOffset = 0`, the
cursor at row 0, column 0, the deque full (`front = 9`, length 10), and in
every window slot `i` of `0..9` the record that `fread` delivers at offset
`16 * i`; for a record that lies wholly inside the file these are the file
bytes `[16 * i, 16 * i + 16)`. -/
theorem openEditor_fills_window (bytes : List Nat) :
    ∃ s, openEditor bytes = .ok s ∧ s.lineOffset = 0 ∧ s.x = 0 ∧ s.y = 0
      ∧ s.editorState = .browsing ∧ s.written = true
      ∧ s.fileBuffer.front = 9 ∧ s.fileBuffer.length = 10 ∧ s.fileBuffer.d.length = 10
      ∧ s.file.bytes = bytes
      ∧ (∀ i, i < 10 → windowRecord s i = some (fileRecord bytes i))
      ∧ (∀ i, i < 10 → 16 * i + 16 ≤ bytes.length →
          windowRecord s i = some (((bytes.drop (16 * i)).take 16).map some)) := by
  obtain ⟨f1, q1, h1, hb1, hf1, hal1, hl1, hdl1, hk1, hj1⟩ :=
    readFileLinesLoop_fill 10 0 { bytes := bytes, pos := 0 } (buildDeque 10 16) rfl rfl
      (by simp [buildDeque]) (by simp [buildDeque])
  have hw : ∀ i, i < 10 → (q1.d.get? i).join = some (fileRecord bytes i) := by
    intro i hi
    have := hj1 i hi
    rw [Nat.zero_add] at this
    rw [this]
    rfl
  refine ⟨{ loadFile startState bytes with file := f1, fileBuffer := q1 }, ?_, rfl, rfl, rfl,
    rfl, rfl, ?_, ?_, ?_, hb1, hw, ?_⟩
  · simp only [openEditor, readFileLines, BUFFER_HEIGHT, bind, Except.bind]
    have : (loadFile startState bytes).file = { bytes := bytes, pos := 0 } := rfl
    rw [this, h1]
  · rw [hf1]; rfl
  · rw [hl1]; rfl
  · rw [hdl1]; simp [buildDeque]
  · intro i hi hin
    have := hw i hi
    rw [fileRecord_inside bytes i hin] at this
    exact this

/-- Witness for C24: a file of 32 bytes. -/
theorem openEditor_fills_window_witness :
    ∃ s, openEditor (numberedFile 32) = .ok s ∧ s.lineOffset = 0 ∧ s.x = 0 ∧ s.y = 0
      ∧ s.editorState = .browsing ∧ s.written = true
      ∧ s.fileBuffer.front = 9 ∧ s.fileBuffer.length = 10 ∧ s.fileBuffer.d.length = 10
      ∧ s.file.bytes = numberedFile 32
      ∧ (∀ i, i < 10 → windowRecord s i = some (fileRecord (numberedFile 32) i))
      ∧ (∀ i, i < 10 → 16 * i + 16 ≤ (numberedFile 32).length →
          windowRecord s i = some ((((numberedFile 32).drop (16 * i)).take 16).map some)) :=
  openEditor_fills_window (numberedFile 32)

/-! ### Aborting an edit -/

theorem eq_of_length_ten {α : Type} (es : List α) (h : es.length = 10) :
    ∃ a0 a1 a2 a3 a4 a5 a6 a7 a8 a9, es = [a0, a1, a2, a3, a4, a5, a6, a7, a8, a9] := by
  match es, h with
  | [a0, a1, a2, a3, a4, a5, a6, a7, a8, a9], _ =>
      exact ⟨a0, a1, a2, a3, a4, a5, a6, a7, a8, a9, rfl⟩

theorem readDequeByte_row_lt (es : List Line) (al : Nat) (y x : Int) (v : Nat)
    (h : readDequeByte (fullDeque al es) y x = .ok v) : 0 ≤ y ∧ y < es.length := by
  by_cases hy : y < 0
  · simp [readDequeByte, slot, hy, bind, Except.bind] at h
  · refine ⟨not_lt.mp hy, ?_⟩
    by_contra hge
    have hlen : (es.map some).length ≤ y.toNat := by
      simp only [List.length_map]
      omega
    have hnone : (fullDeque al es).d[y.toNat]? = none := List.getElem?_eq_none hlen
    simp only [readDequeByte, slot, hy, if_false, List.get?_eq_getElem?, hnone, bind,
      Except.bind] at h
    cases h

theorem scrollUp_keeps_byte (es : List Line) (hn : es.length = 10) (r : Line) (x : Int)
    (v : Nat) (h : readDequeByte (fullDeque 16 es) 0 x = .ok v) :
    readDequeByte (fullDeque 16 (r :: es.dropLast)) 1 x = .ok v := by
  obtain ⟨a0, a1, a2, a3, a4, a5, a6, a7, a8, a9, rfl⟩ := eq_of_length_ten es hn
  exact h

theorem scrollDown_keeps_byte (es : List Line) (hn : es.length = 10) (r : Line) (x : Int)
    (v : Nat) (h : readDequeByte (fullDeque 16 es) 9 x = .ok v) :
    readDequeByte (fullDeque 16 (es.tail ++ [r])) 8 x = .ok v := by
  obtain ⟨a0, a1, a2, a3, a4, a5, a6, a7, a8, a9, rfl⟩ := eq_of_length_ten es hn
  exact h

/-- C25 (counterexample): with `lineOffset = 2`, the cursor on row 0, column 0
and the digit `7` just typed there, the Up key scrolls the window: the editor
is in Browsing with `written` clear, but the window byte under the cursor
(row 0, column 0) now belongs to the newly loaded record and is `0x00`; the
value `0x07` sits one row further down. -/
theorem abort_by_scroll_moves_edited_byte :
    (runEditor [] (numberedFile 224) (downs 11 ++ ups 9 ++ [.other 55])).map
        (fun s => (s.editorState, s.lineOffset, s.y, s.x, readDequeByte s.fileBuffer 0 0))
      = .ok (.editing, 2, 0, 0, .ok 0x07)
    ∧ (runEditor [] (numberedFile 224) (downs 11 ++ ups 9 ++ [.other 55, .escape 65])).map
        (fun s => (s.editorState, s.written, s.lineOffset, s.y, s.x,
                   readDequeByte s.fileBuffer 0 0, readDequeByte s.fileBuffer 1 0))
      = .ok (.browsing, false, 1, 0, 0, .ok 0x00, .ok 0x07) :=
  ⟨rfl, rfl⟩

/-- C25 (amended): in Editing, with the window holding ten live 16-byte
records and the value `v` under the cursor, a non-hex key and every
navigation or escape input is handled, returns the editor to Browsing without
composing a second digit and clears `written`.  The value `v` stays in the
window in the same column, on the row that shows the same file line: row
`y + lineOffset - lineOffset'`, which is the cursor's original row whenever
the input does not scroll the window, one row below it after a scroll by Up
and one row above it after a scroll by Down. -/
theorem abort_keeps_first_digit (s : State) (es : List Line) (v : Nat)
    (he : s.editorState = .editing)
    (hq : s.fileBuffer = fullDeque 16 es) (hn : es.length = 10)
    (hes : ∀ e ∈ es, e.length = 16)
    (hv : readDequeByte s.fileBuffer s.y s.x = .ok v)
    (hbh : s.bufferHeight = if s.lineSize ≤ 10 then (s.lineSize : Int) + 1 else 10)
    (hlo : s.lineOffset + 10 < 2 ^ 64) :
    (∀ c, convertHexChar (toChar c) = -1 →
        ∃ s2, handleInput s (.other c) = .ok s2 ∧ s2.editorState = .browsing
          ∧ s2.written = false ∧ s2.lineOffset = s.lineOffset ∧ s2.x = s.x ∧ s2.y = s.y
          ∧ readDequeByte s2.fileBuffer s.y s.x = .ok v)
    ∧ (∀ k, ∃ s2, handleInput s (.escape k) = .ok s2 ∧ s2.editorState = .browsing
          ∧ s2.written = false
          ∧ readDequeByte s2.fileBuffer (s.y + (s.lineOffset : Int) - (s2.lineOffset : Int)) s.x
              = .ok v
          ∧ (s2.lineOffset = s.lineOffset → readDequeByte s2.fileBuffer s.y s.x = .ok v)) := by
  have hne : es ≠ [] := by
    intro h
    rw [h] at hn
    cases hn
  have hrow := readDequeByte_row_lt es 16 s.y s.x v (hq ▸ hv)
  have hsame : readDequeByte s.fileBuffer (s.y + (s.lineOffset : Int) - (s.lineOffset : Int)) s.x
      = .ok v := by
    rw [add_sub_cancel_right]
    exact hv
  constructor
  · intro c hc
    exact ⟨{ s with editorState := .browsing, written := false },
      by simp only [handleInput, hc, if_true], rfl, rfl, rfl, rfl, rfl, hv⟩
  · intro k
    simp only [handleInput, he, if_true]
    by_cases k1 : k = 65
    · rw [if_pos k1]
      unfold keyUp
      dsimp only
      by_cases hy : s.y ≠ 0
      · rw [if_pos hy]
        exact ⟨_, rfl, rfl, rfl, hsame, fun _ => hv⟩
      · rw [if_neg hy]
        by_cases hl0 : s.lineOffset = 0
        · rw [if_pos hl0]
          exact ⟨_, rfl, rfl, rfl, hsame, fun _ => hv⟩
        · rw [if_neg hl0, hq, pushDequeBack_full 16 es _ hne]
          simp only [bind, Except.bind]
          have hy0 : s.y = 0 := not_not.mp hy
          have hrw : s.y + (s.lineOffset : Int)
              - (((s.lineOffset + 2 ^ 64 - 1) % 2 ^ 64 : Nat) : Int) = 1 := by omega
          refine ⟨_, rfl, rfl, rfl, ?_, ?_⟩
          · dsimp only
            rw [hrw]
            apply scrollUp_keeps_byte es hn
            rw [← hq, ← hy0]
            exact hv
          · dsimp only
            intro h
            exfalso
            omega
    · rw [if_neg k1]
      by_cases k2 : k = 66
      · rw [if_pos k2]
        unfold keyDown
        dsimp only
        by_cases hy : s.y ≠ s.bufferHeight - 1
        · rw [if_pos hy]
          exact ⟨_, rfl, rfl, rfl, hsame, fun _ => hv⟩
        · rw [if_neg hy]
          by_cases hg : (s.lineOffset + BUFFER_HEIGHT) % 2 ^ 64 > s.lineSize
          · rw [if_pos hg]
            exact ⟨_, rfl, rfl, rfl, hsame, fun _ => hv⟩
          · rw [if_neg hg, hq,
              pushDequeFront_full 16 es _ hne (fun e h => hes e (List.mem_of_mem_tail h))]
            simp only [bind, Except.bind]
            have hyb : s.y = s.bufferHeight - 1 := not_not.mp hy
            simp only [BUFFER_HEIGHT] at hg
            have hy9 : s.y = 9 := by
              rw [hn] at hrow
              split_ifs at hbh <;> omega
            have hrw : s.y + (s.lineOffset : Int)
                - (((s.lineOffset + 1) % 2 ^ 64 : Nat) : Int) = 8 := by omega
            refine ⟨_, rfl, rfl, rfl, ?_, ?_⟩
            · dsimp only
              rw [hrw]
              apply scrollDown_keeps_byte es hn
              rw [← hq, ← hy9]
              exact hv
            · dsimp only
              intro h
              exfalso
              omega
      · rw [if_neg k2]
        by_cases k3 : k = 67
        · rw [if_pos k3]
          exact ⟨_, rfl, rfl, rfl, hsame, fun _ => hv⟩
        · rw [if_neg k3]
          by_cases k4 : k = 68
          · rw [if_pos k4]
            exact ⟨_, rfl, rfl, rfl, hsame, fun _ => hv⟩
          · rw [if_neg k4]
            exact ⟨_, rfl, rfl, rfl, hsame, fun _ => hv⟩

/-- Witness for C25 (amended): the state after the key `7` on the freshly
opened 32-byte file. -/
theorem abort_keeps_first_digit_witness :
    (∀ c, convertHexChar (toChar c) = -1 →
        ∃ s2, handleInput editing32 (.other c) = .ok s2 ∧ s2.editorState = .browsing
          ∧ s2.written = false ∧ s2.lineOffset = editing32.lineOffset ∧ s2.x = editing32.x
          ∧ s2.y = editing32.y
          ∧ readDequeByte s2.fileBuffer editing32.y editing32.x = .ok 7)
    ∧ (∀ k, ∃ s2, handleInput editing32 (.escape k) = .ok s2 ∧ s2.editorState = .browsing
          ∧ s2.written = false
          ∧ readDequeByte s2.fileBuffer
              (editing32.y + (editing32.lineOffset : Int) - (s2.lineOffset : Int)) editing32.x
              = .ok 7
          ∧ (s2.lineOffset = editing32.lineOffset →
              readDequeByte s2.fileBuffer editing32.y editing32.x = .ok 7)) :=
  abort_keeps_first_digit editing32 window32 7 rfl rfl rfl (by decide) rfl rfl (by decide)

/-! ### What the loop does to the file -/

theorem readFileContents_bytes (f : FILE) (offset : Int) (n : Nat) :
    (readFileContents f offset n).2.bytes = f.bytes := by
  unfold readFileContents fread fseek
  split_ifs <;> rfl

theorem readFileContents_length (f : FILE) (offset : Int) (n : Nat) :
    (readFileContents f offset n).1.length = n := by
  simp [readFileContents, fread]

theorem searchBytes_bytes (sb : List Nat) (sl i : Nat) :
    ∀ (cnt j : Nat) (rb : Line) (f f1 : FILE) (p : Option Nat),
      searchBytes sb sl i cnt j rb f = .ok (p, f1) → f1.bytes = f.bytes := by
  intro cnt
  induction cnt with
  | zero =>
      intro j rb f f1 p h
      simp only [searchBytes] at h
      cases h
      rfl
  | succ cnt ih =>
      intro j rb f f1 p h
      unfold searchBytes at h
      split at h
      · split_ifs at h with h1 h2
        · dsimp only at h
          split at h
          · cases h
          · cases h
            exact readFileContents_bytes _ _ _
          · have := ih _ _ _ _ _ h
            rw [this, readFileContents_bytes, readFileContents_bytes]
        · exact ih _ _ _ _ _ h
      · cases h

theorem searchLines_bytes (sb : List Nat) (sl : Nat) :
    ∀ (cnt i : Nat) (f f1 : FILE) (p : Option Nat),
      searchLines sb sl cnt i f = .ok (p, f1) → f1.bytes = f.bytes := by
  intro cnt
  induction cnt with
  | zero =>
      intro i f f1 p h
      simp only [searchLines] at h
      cases h
      rfl
  | succ cnt ih =>
      intro i f f1 p h
      unfold searchLines at h
      split_ifs at h with h1
      dsimp only at h
      split at h
      · cases h
      · rename_i q f2 hs
        cases h
        rw [searchBytes_bytes _ _ _ _ _ _ _ _ _ hs, readFileContents_bytes]
      · rename_i f2 hs
        rw [ih _ _ _ _ h, searchBytes_bytes _ _ _ _ _ _ _ _ _ hs, readFileContents_bytes]

theorem searchAlgorithm_bytes (f f1 : FILE) (size : Nat) (ff b : Bool) (sb : List Nat)
    (sl p : Nat) (h : searchAlgorithm f size ff sb sl = .ok (p, b, f1)) :
    f1.bytes = f.bytes := by
  unfold searchAlgorithm at h
  split at h
  · cases h
  · rename_i q f2 hs
    cases h
    exact searchLines_bytes _ _ _ _ _ _ _ hs
  · rename_i f2 hs
    cases h
    exact searchLines_bytes _ _ _ _ _ _ _ hs

theorem keyUp_bytes {s t : State} (h : keyUp s = .ok t) : t.file.bytes = s.file.bytes := by
  unfold keyUp at h
  split_ifs at h with h1 h2
  · cases h; rfl
  · cases h; rfl
  · dsimp only at h
    generalize pushDequeBack s.fileBuffer _ = r at h
    cases r with
    | error e => cases h
    | ok q => cases h; exact readFileContents_bytes _ _ _

theorem keyDown_bytes {s t : State} (h : keyDown s = .ok t) :
    t.file.bytes = s.file.bytes := by
  unfold keyDown at h
  split_ifs at h with h1 h2
  · cases h; rfl
  · cases h; rfl
  · dsimp only at h
    generalize pushDequeFront s.fileBuffer _ = r at h
    cases r with
    | error e => cases h
    | ok q => cases h; exact readFileContents_bytes _ _ _

theorem handleInput_bytes {s t : State} (inp : Input) (h : handleInput s inp = .ok t) :
    t.file.bytes = s.file.bytes := by
  cases inp with
  | quit => cases h; rfl
  | write => cases h; rfl
  | search sb =>
      simp only [handleInput] at h
      cases hr : searchAlgorithm s.file s.size s.foundFlag sb sb.length with
      | error e => rw [hr] at h; cases h
      | ok v =>
          obtain ⟨p, found, f1⟩ := v
          rw [hr] at h
          dsimp only at h
          have hb := searchAlgorithm_bytes _ _ _ _ _ _ _ _ hr
          split_ifs at h <;> (cases h; exact hb)
  | escape d =>
      simp only [handleInput] at h
      have hs1 : (if s.editorState = .editing
          then { s with written := false, editorState := .browsing } else s).file.bytes
            = s.file.bytes := by
        split_ifs <;> rfl
      generalize (if s.editorState = .editing
          then { s with written := false, editorState := .browsing } else s) = s1 at h hs1
      by_cases d1 : d = 65
      · rw [if_pos d1] at h
        exact (keyUp_bytes h).trans hs1
      · rw [if_neg d1] at h
        by_cases d2 : d = 66
        · rw [if_pos d2] at h
          exact (keyDown_bytes h).trans hs1
        · rw [if_neg d2] at h
          split_ifs at h
          all_goals (cases h; exact hs1)
  | other c =>
      simp only [handleInput] at h
      split_ifs at h with hv
      · cases h; rfl
      · cases he : s.editorState with
        | browsing =>
            rw [he] at h
            simp only [bind, Except.bind] at h
            generalize writeDequeByte s.fileBuffer s.y s.x _ = r at h
            cases r with
            | error e => cases h
            | ok q => cases h; rfl
        | editing =>
            rw [he] at h
            simp only [bind, Except.bind] at h
            generalize readDequeByte s.fileBuffer s.y s.x = rb at h
            cases rb with
            | error e => cases h
            | ok b =>
                simp only at h
                generalize writeDequeByte s.fileBuffer s.y s.x _ = r at h
                cases r with
                | error e => cases h
                | ok q => cases h; rfl

theorem gridInv_flushOffset {n : Nat} {s : State} (hi : gridInv n s) :
    0 ≤ flushOffset s ∧ flushOffset s < 16 * ((n : Int) + 1) := by
  obtain ⟨i1, i2, i3, i4, i5, i6, i7, i8, i9⟩ := hi
  constructor
  · unfold flushOffset toLong toULong
    split_ifs <;> omega
  · unfold flushOffset toLong toULong
    split_ifs <;> omega

theorem writeCharToFile_length (adjacent : List Nat) (f : FILE) (offset : Int) (ch : Nat)
    (hone : adjacent.takeWhile (fun b => b != 0) = []) (ho : 0 ≤ offset) :
    (writeCharToFile adjacent f offset ch).bytes.length
      ≤ max f.bytes.length (offset.toNat + 1) := by
  have hno : ¬ offset < 0 := not_lt.mpr ho
  by_cases hc : ch = 0
  · subst hc
    simp [writeCharToFile, fputs, fwriteAt, fseek, hno]
  · have htw : (ch :: adjacent).takeWhile (fun b => b != 0) = [ch] := by
      simp [List.takeWhile_cons, hc, hone]
    simp only [writeCharToFile, fputs, htw, fwriteAt, fseek, hno, if_false, List.cons_ne_nil,
      List.length_append, List.length_take, List.length_replicate, List.length_drop,
      List.length_singleton, Int.toNat_zero]
    split_ifs <;> simp only [List.length_append, List.length_take, List.length_replicate,
      List.length_drop, List.length_singleton] <;> omega

theorem flushUnwritten_length {n : Nat} {s t : State} (adjacent : List Nat)
    (hone : adjacent.takeWhile (fun b => b != 0) = [])
    (h : flushUnwritten adjacent s = .ok t) (hi : gridInv n s)
    (hl : s.file.bytes.length ≤ 16 * (n + 1)) : t.file.bytes.length ≤ 16 * (n + 1) := by
  obtain ⟨o1, o2⟩ := gridInv_flushOffset hi
  unfold flushUnwritten at h
  split_ifs at h with hc
  · simp only [bind, Except.bind] at h
    generalize readDequeByte s.fileBuffer s.y s.x = rb at h
    cases rb with
    | error e => cases h
    | ok b =>
        cases h
        have := writeCharToFile_length adjacent s.file (flushOffset s) b hone o1
        have h2 : (flushOffset s).toNat + 1 ≤ 16 * (n + 1) := by omega
        exact le_trans this (max_le hl h2)
  · cases h; exact hl

theorem fileLength_mainLoop {n : Nat} (hn : n ≠ 10) (adjacent : List Nat)
    (hone : adjacent.takeWhile (fun b => b != 0) = []) :
    ∀ (inputs : List Input) (s t : State),
      mainLoop adjacent inputs s = .ok t → gridInv n s →
      s.file.bytes.length ≤ 16 * (n + 1) → t.file.bytes.length ≤ 16 * (n + 1) := by
  intro inputs
  induction inputs with
  | nil => intro s t h _ hl; cases h; exact hl
  | cons inp rest ih =>
      intro s t h hi hl
      simp only [mainLoop, bind, Except.bind] at h
      cases hf : flushUnwritten adjacent s with
      | error e => rw [hf] at h; cases h
      | ok s1 =>
          rw [hf] at h
          have hi1 := gridInv_flushUnwritten adjacent hf hi
          have hl1 := flushUnwritten_length adjacent hone hf hi hl
          simp only at h
          split_ifs at h with hq
          · cases h; exact hl1
          · cases hh : handleInput s1 inp with
            | error e => rw [hh] at h; cases h
            | ok s2 =>
                rw [hh] at h
                exact ih s2 t h (gridInv_handleInput hn inp hh hi1)
                  (by rw [handleInput_bytes inp hh]; exact hl1)

/-! ### Runs of navigation keys and complete edits -/

theorem openEditor_windowFull (bytes : List Nat) :
    ∃ s, openEditor bytes = .ok s ∧ s.editorState = .browsing ∧ s.written = true
      ∧ windowFull s ∧ s.file.bytes = bytes := by
  obtain ⟨f1, q1, h1, hb1, hf1, hal1, hl1, hdl1, hk1, hj1⟩ :=
    readFileLinesLoop_fill 10 0 { bytes := bytes, pos := 0 } (buildDeque 10 16) rfl rfl
      (by simp [buildDeque]) (by simp [buildDeque])
  have hd : q1.d = ((List.range 10).map (fileRecord bytes)).map some := by
    apply List.ext_getElem?
    intro k
    by_cases hk : k < 10
    · have := hj1 k hk
      rw [Nat.zero_add, List.get?_eq_getElem?] at this
      rw [this]
      simp [List.getElem?_range, hk]
    · have e1 : q1.d.length ≤ k := by rw [hdl1]; simp [buildDeque]; omega
      have e2 : (((List.range 10).map (fileRecord bytes)).map some).length ≤ k := by
        simp; omega
      rw [List.getElem?_eq_none e1, List.getElem?_eq_none e2]
  have hq : q1 = fullDeque 16 ((List.range 10).map (fileRecord bytes)) := by
    cases q1 with
    | mk front arrayLength length d =>
        simp only at hf1 hal1 hl1 hd
        simp only [fullDeque, List.length_map, List.length_range, deque.mk.injEq]
        refine ⟨by rw [hf1], hal1, by rw [hl1]; rfl, hd⟩
  refine ⟨{ loadFile startState bytes with file := f1, fileBuffer := q1 }, ?_, rfl, rfl,
    ⟨(List.range 10).map (fileRecord bytes), hq, by simp, ?_⟩, hb1⟩
  · simp only [openEditor, readFileLines, BUFFER_HEIGHT, bind, Except.bind]
    have : (loadFile startState bytes).file = { bytes := bytes, pos := 0 } := rfl
    rw [this, h1]
  · intro e he
    obtain ⟨k, _, rfl⟩ := List.mem_map.mp he
    exact fileRecord_length _ _

theorem fullDeque_row (es : List Line) (hn : es.length = 10) (y : Int) (hy0 : 0 ≤ y)
    (hy9 : y ≤ 9) :
    ∃ l, (fullDeque 16 es).d.get? y.toNat = some (some l) ∧ l ∈ es := by
  have hlt : y.toNat < es.length := by omega
  refine ⟨es[y.toNat], ?_, List.getElem_mem _⟩
  simp [fullDeque, List.getElem?_eq_getElem hlt]

theorem writeDequeByte_full (es : List Line) (hn : es.length = 10)
    (hes : ∀ e ∈ es, e.length = 16) (y x : Int) (hy0 : 0 ≤ y) (hy9 : y ≤ 9) (hx0 : 0 ≤ x)
    (hx15 : x ≤ 15) (b : Int) :
    ∃ es2 : List Line, writeDequeByte (fullDeque 16 es) y x b = .ok (fullDeque 16 es2)
      ∧ es2.length = 10 ∧ (∀ e ∈ es2, e.length = 16)
      ∧ readDequeByte (fullDeque 16 es2) y x = .ok (b % 256).toNat := by
  obtain ⟨l, hl, hmem⟩ := fullDeque_row es hn y hy0 hy9
  have hll : l.length = 16 := hes l hmem
  have hxl : x.toNat < l.length := by omega
  have hlt : y.toNat < es.length := by omega
  have hd : (fullDeque 16 es).d.set y.toNat (some (l.set x.toNat (some (b % 256).toNat)))
      = (fullDeque 16 (es.set y.toNat (l.set x.toNat (some (b % 256).toNat)))).d := by
    simp [fullDeque, List.map_set]
  refine ⟨es.set y.toNat (l.set x.toNat (some (b % 256).toNat)), ?_, by simp [hn], ?_, ?_⟩
  · rw [writeDequeByte_ok b hy0 hx0 hl hxl, hd]
    simp [fullDeque]
  · intro e he
    rcases List.mem_or_eq_of_mem_set he with h | h
    · exact hes e h
    · rw [h]; simp [hll]
  · apply readDequeByte_ok hy0 hx0 (l := l.set x.toNat (some (b % 256).toNat))
    · simp [fullDeque, List.getElem?_set, hlt]
    · simp [List.getElem?_set, hxl]

theorem flushUnwritten_total (adjacent : List Nat) {s : State}
    (hr : s.written = true ∨ ∃ v, readDequeByte s.fileBuffer s.y s.x = .ok v) :
    ∃ t, flushUnwritten adjacent s = .ok t ∧ t.editorState = s.editorState
      ∧ t.fileBuffer = s.fileBuffer ∧ (s.editorState = .browsing → t.written = true) := by
  unfold flushUnwritten
  split_ifs with hc
  · rcases hr with hw | ⟨v, hv⟩
    · rw [hw] at hc
      exact absurd hc.2 (by decide)
    · rw [hv]
      exact ⟨_, rfl, rfl, rfl, fun _ => rfl⟩
  · refine ⟨s, rfl, rfl, rfl, ?_⟩
    intro hb
    by_contra hw
    exact hc ⟨hb, by simpa using hw⟩

theorem escape_total {s : State} (k : Int) (hb : s.editorState = .browsing)
    (hw : s.written = true) (hf : windowFull s) :
    ∃ t, handleInput s (.escape k) = .ok t ∧ t.editorState = .browsing ∧ t.written = true
      ∧ windowFull t := by
  obtain ⟨es, hq, hn, hes⟩ := hf
  have hne : es ≠ [] := by
    intro h
    rw [h] at hn
    cases hn
  have hnb : ¬ (s.editorState = .editing) := by rw [hb]; decide
  simp only [handleInput, hnb, if_false]
  by_cases k1 : k = 65
  · rw [if_pos k1]
    unfold keyUp
    dsimp only
    by_cases hy : s.y ≠ 0
    · rw [if_pos hy]
      exact ⟨_, rfl, hb, hw, es, hq, hn, hes⟩
    · rw [if_neg hy]
      by_cases hl0 : s.lineOffset = 0
      · rw [if_pos hl0]
        exact ⟨_, rfl, hb, hw, es, hq, hn, hes⟩
      · rw [if_neg hl0, hq, pushDequeBack_full 16 es _ hne]
        simp only [bind, Except.bind]
        refine ⟨_, rfl, hb, hw, _, rfl, ?_, ?_⟩
        · rw [List.length_cons, List.length_dropLast, hn]
        · intro e he
          rcases List.mem_cons.mp he with h | h
          · rw [h]
            exact readFileContents_length _ _ _
          · exact hes e (List.mem_of_mem_dropLast h)
  · rw [if_neg k1]
    by_cases k2 : k = 66
    · rw [if_pos k2]
      unfold keyDown
      dsimp only
      by_cases hy : s.y ≠ s.bufferHeight - 1
      · rw [if_pos hy]
        exact ⟨_, rfl, hb, hw, es, hq, hn, hes⟩
      · rw [if_neg hy]
        by_cases hg : (s.lineOffset + BUFFER_HEIGHT) % 2 ^ 64 > s.lineSize
        · rw [if_pos hg]
          exact ⟨_, rfl, hb, hw, es, hq, hn, hes⟩
        · rw [if_neg hg, hq,
            pushDequeFront_full 16 es _ hne (fun e h => hes e (List.mem_of_mem_tail h))]
          simp only [bind, Except.bind]
          refine ⟨_, rfl, hb, hw, _, rfl, ?_, ?_⟩
          · rw [List.length_append, List.length_tail, hn]
            rfl
          · intro e he
            rcases List.mem_append.mp he with h | h
            · exact hes e (List.mem_of_mem_tail h)
            · rw [List.mem_singleton.mp h]
              exact memcpy_length _ _
    · rw [if_neg k2]
      by_cases k3 : k = 67
      · rw [if_pos k3]
        exact ⟨_, rfl, hb, hw, es, hq, hn, hes⟩
      · rw [if_neg k3]
        by_cases k4 : k = 68
        · rw [if_pos k4]
          exact ⟨_, rfl, hb, hw, es, hq, hn, hes⟩
        · rw [if_neg k4]
          exact ⟨_, rfl, hb, hw, es, hq, hn, hes⟩

theorem edit_total {n : Nat} (hn : n ≠ 10) (adjacent : List Nat) {s : State} (c1 c2 : Int)
    (h1 : convertHexChar (toChar c1) ≠ -1) (h2 : convertHexChar (toChar c2) ≠ -1)
    (hi : gridInv n s) (hb : s.editorState = .browsing) (hf : windowFull s) :
    ∃ t u, handleInput s (.other c1) = .ok t ∧ flushUnwritten adjacent t = .ok t
      ∧ handleInput t (.other c2) = .ok u ∧ u.editorState = .browsing ∧ windowFull u
      ∧ ∃ v, readDequeByte u.fileBuffer u.y u.x = .ok v := by
  obtain ⟨es, hq, hlen, hes⟩ := hf
  obtain ⟨i1, i2, i3, i4, i5, i6, i7, i8, i9⟩ := hi
  have hy9 : s.y ≤ 9 := by omega
  obtain ⟨es2, hw1, hn2, hes2, hr1⟩ :=
    writeDequeByte_full es hlen hes s.y s.x i5 hy9 i3 i4 (convertHexChar (toChar c1))
  obtain ⟨es3, hw2, hn3, hes3, hr2⟩ :=
    writeDequeByte_full es2 hn2 hes2 s.y s.x i5 hy9 i3 i4
      (toChar ((convertHexChar (toChar c1) % 256).toNat : Int) * 16 + convertHexChar (toChar c2))
  refine ⟨{ s with fileBuffer := fullDeque 16 es2, editorState := .editing, written := false },
    { s with fileBuffer := fullDeque 16 es3, editorState := .browsing, written := false },
    ?_, ?_, ?_, rfl, ⟨es3, rfl, hn3, hes3⟩, _, hr2⟩
  · simp only [handleInput, h1, if_false, hb, hq, hw1, bind, Except.bind]
  · simp [flushUnwritten]
  · simp only [handleInput, h2, if_false, hr1, hw2, bind, Except.bind]

theorem usualBlocks_total {n : Nat} (hn : n ≠ 10) (adjacent : List Nat) :
    ∀ (blocks : List (List Input)) (s : State), (∀ b ∈ blocks, usualBlock b = true) →
      gridInv n s → s.editorState = .browsing → windowFull s →
      (s.written = true ∨ ∃ v, readDequeByte s.fileBuffer s.y s.x = .ok v) →
      ∃ t, mainLoop adjacent blocks.flatten s = .ok t := by
  intro blocks
  induction blocks with
  | nil => intro s _ _ _ _ _; exact ⟨s, rfl⟩
  | cons b rest ih =>
      intro s hbl hi hb hf hr
      have hrest : ∀ b ∈ rest, usualBlock b = true :=
        fun b hb => hbl b (List.mem_cons_of_mem _ hb)
      have hbb : usualBlock b = true := hbl b (List.mem_cons_self _ _)
      obtain ⟨s1, hfl, e1, e2, e3⟩ := flushUnwritten_total adjacent hr
      have hi1 := gridInv_flushUnwritten adjacent hfl hi
      have hb1 : s1.editorState = .browsing := e1.trans hb
      have hw1 : s1.written = true := e3 hb
      have hf1 : windowFull s1 := by
        obtain ⟨es, hq, hlen, hes⟩ := hf
        exact ⟨es, e2.trans hq, hlen, hes⟩
      unfold usualBlock at hbb
      split at hbb
      · rename_i k
        obtain ⟨s2, hh, hb2, hw2, hf2⟩ := escape_total k hb1 hw1 hf1
        have hi2 := gridInv_handleInput hn _ hh hi1
        obtain ⟨t, ht⟩ := ih s2 hrest hi2 hb2 hf2 (Or.inl hw2)
        refine ⟨t, ?_⟩
        simp only [List.flatten_cons, List.singleton_append, mainLoop, hfl, bind, Except.bind,
          hh, reduceCtorEq, if_false]
        exact ht
      · obtain ⟨t, ht⟩ := ih s1 hrest hi1 hb1 hf1 (Or.inl hw1)
        refine ⟨t, ?_⟩
        simp only [List.flatten_cons, List.singleton_append, mainLoop, hfl, bind, Except.bind,
          handleInput, reduceCtorEq, if_false]
        exact ht
      · rename_i c1 c2
        simp only [Bool.and_eq_true, bne_iff_ne, ne_eq] at hbb
        obtain ⟨t, u, hh1, hfl2, hh2, hbu, hfu, hru⟩ :=
          edit_total hn adjacent c1 c2 hbb.1 hbb.2 hi1 hb1 hf1
        have hit := gridInv_handleInput hn _ hh1 hi1
        have hiu := gridInv_handleInput hn _ hh2 (gridInv_flushUnwritten adjacent hfl2 hit)
        obtain ⟨w, hw⟩ := ih u hrest hiu hbu hfu (Or.inr hru)
        refine ⟨w, ?_⟩
        simp only [List.flatten_cons, List.cons_append, List.nil_append, mainLoop, hfl, bind,
          Except.bind, hh1, hfl2, hh2, reduceCtorEq, if_false]
        exact hw
      · cases hbb

theorem flushUnwritten_writes_at (adjacent : List Nat) (s : State) (ch : Nat)
    (hb : s.editorState = .browsing) (hw : s.written = false)
    (hr : readDequeByte s.fileBuffer s.y s.x = .ok ch) :
    flushUnwritten adjacent s
      = .ok { s with file := writeCharToFile adjacent s.file (flushOffset s) ch,
                     written := true } := by
  simp only [flushUnwritten, flushOffset, hb, hw, hr, and_self, if_true, bind, Except.bind]

/-- C12 (amended): on a file whose size is below `2^64`, is not a multiple
of 16 and does not give exactly ten whole records, after every input
sequence for which the program's behaviour is determined the cursor column is
in `0..15`, the row is in `0..bufferHeight - 1`, and the record under the
cursor, `lineOffset + y`, is at most the index `(size - 1) / 16` of the last
record of the file; so the cursor offset, and the offset at which a flush
starts to write, are below the end `16 * ceil(size / 16)` of that record,
and when a zero byte follows `ch` in memory (the flush writes one byte) the
file never grows beyond that end.  The column is not bounded by the file
size.  Every sequence of navigation keys and complete two-digit edits is such
an input sequence. -/
theorem cursor_stays_within_last_record (adjacent bytes : List Nat)
    (hsz : bytes.length < 2 ^ 64) (h16 : bytes.length % 16 ≠ 0)
    (h10 : bytes.length / 16 ≠ 10) :
    (∀ (inputs : List Input) (s : State), runEditor adjacent bytes inputs = .ok s →
        0 ≤ s.x ∧ s.x ≤ 15 ∧ 0 ≤ s.y ∧ s.y ≤ s.bufferHeight - 1
        ∧ (s.lineOffset : Int) + s.y ≤ (((bytes.length - 1) / 16 : Nat) : Int)
        ∧ ((s.lineOffset : Int) + s.y) * 16 + s.x
            < 16 * (((bytes.length + 15) / 16 : Nat) : Int)
        ∧ 0 ≤ flushOffset s
        ∧ flushOffset s < 16 * (((bytes.length + 15) / 16 : Nat) : Int)
        ∧ (adjacent.takeWhile (fun b => b != 0) = [] →
            s.file.bytes.length ≤ 16 * ((bytes.length + 15) / 16)))
    ∧ (∀ blocks : List (List Input), (∀ b ∈ blocks, usualBlock b = true) →
        ∃ s, runEditor adjacent bytes blocks.flatten = .ok s) := by
  have hmod : bytes.length % 2 ^ 64 = bytes.length := Nat.mod_eq_of_lt hsz
  have hn : bytes.length % 2 ^ 64 / 16 ≠ 10 := by rw [hmod]; exact h10
  constructor
  · intro inputs s hrun
    simp only [runEditor, bind, Except.bind] at hrun
    cases ho : openEditor bytes with
    | error e => rw [ho] at hrun; cases hrun
    | ok s0 =>
        rw [ho] at hrun
        have hi0 := gridInv_openEditor ho
        have hi := gridInv_mainLoop hn adjacent inputs s0 s hrun hi0
        have hb0 : s0.file.bytes = bytes := by
          obtain ⟨t, ht, _, _, _, hbt⟩ := openEditor_windowFull bytes
          rw [ho] at ht
          cases ht
          exact hbt
        obtain ⟨o1, o2⟩ := gridInv_flushOffset hi
        have hlen : adjacent.takeWhile (fun b => b != 0) = [] →
            s.file.bytes.length ≤ 16 * (bytes.length % 2 ^ 64 / 16 + 1) := by
          intro hone
          apply fileLength_mainLoop hn adjacent hone inputs s0 s hrun hi0
          rw [hb0, hmod]
          omega
        obtain ⟨i1, i2, i3, i4, i5, i6, i7, i8, i9⟩ := hi
        rw [hmod] at o2 hlen i7 i8 i9
        refine ⟨i3, i4, i5, i6, by omega, by omega, o1, by omega, ?_⟩
        intro hone
        have := hlen hone
        omega
  · intro blocks hbl
    obtain ⟨s0, ho, hb0, hw0, hf0, _⟩ := openEditor_windowFull bytes
    obtain ⟨t, ht⟩ := usualBlocks_total hn adjacent blocks s0 hbl (gridInv_openEditor ho)
      hb0 hf0 (Or.inl hw0)
    refine ⟨t, ?_⟩
    simp only [runEditor, ho, bind, Except.bind]
    exact ht

/-- Witness for C12 (amended): on the five-byte file, with a zero byte after
`ch`, the state after five Right keys and the keys `4` and `1`, and a run of
navigation keys, the write command and a complete edit. -/
theorem cursor_stays_within_last_record_witness :
    (0 ≤ shortFileRun.x ∧ shortFileRun.x ≤ 15 ∧ 0 ≤ shortFileRun.y
        ∧ shortFileRun.y ≤ shortFileRun.bufferHeight - 1
        ∧ (shortFileRun.lineOffset : Int) + shortFileRun.y
            ≤ (((shortFile.length - 1) / 16 : Nat) : Int)
        ∧ ((shortFileRun.lineOffset : Int) + shortFileRun.y) * 16 + shortFileRun.x
            < 16 * (((shortFile.length + 15) / 16 : Nat) : Int)
        ∧ 0 ≤ flushOffset shortFileRun
        ∧ flushOffset shortFileRun < 16 * (((shortFile.length + 15) / 16 : Nat) : Int)
        ∧ (([] : List Nat).takeWhile (fun b => b != 0) = [] →
            shortFileRun.file.bytes.length ≤ 16 * ((shortFile.length + 15) / 16)))
    ∧ ∃ s, runEditor [] shortFile
        (List.flatten [[Input.escape 67], [Input.other 52, Input.other 49], [Input.write],
          [Input.escape 66], [Input.escape 67]]) = .ok s :=
  ⟨(cursor_stays_within_last_record [] shortFile (by decide) (by decide) (by decide)).1
      (rights 5 ++ [Input.other 52, Input.other 49]) shortFileRun rfl,
   (cursor_stays_within_last_record [] shortFile (by decide) (by decide) (by decide)).2
      [[Input.escape 67], [Input.other 52, Input.other 49], [Input.write],
        [Input.escape 66], [Input.escape 67]] (by decide)⟩

end HexEditor
